import Mathlib

/-!
# A verification development for the `deno-gfm` Markdown pipeline

This file gives a shallow embedding, in Lean 4, of the structural
token-to-output transformation pipeline of `src/mod.ts`:

* the rendering projection (`Renderer.code`, `Renderer.link`,
  `Renderer.heading` and the per-call slug registry),
* the sanitization gate configuration built by `render`
  (allow-list resolution, `mergeAttributes`, `transformMedia`,
  protocol-relative rejection),
* the plain-text reduction projection (`stripTokens`,
  `stripSplitBySections`, `strip`) together with the two math-removal
  regexes `BLOCK_MATH_REGEXP` and `INLINE_MATH_REGEXP`.

External collaborators (the `marked` tokenizer, `sanitize-html`,
`github-slugger`, `katex`, `prismjs`, `he`, `emoji`) are not part of the
repository's sources; where the development needs their behaviour they are
either taken as function parameters of the embedded operations or modelled
executably from their documented contracts, and each such definition says
so in its doc comment.  JavaScript strings are modelled as Lean `String`
(lists of characters); JavaScript runtime conventions that the source
relies on (truthiness of strings, `?.` chains, object spread) are made
explicit at each use site.
-/

/-! ## Character and string helpers (JS string primitives) -/

/-- The ASCII part of the JavaScript whitespace class `\s`, which is also the
set trimmed by `String.prototype.trim` (the full JS set additionally has
Unicode space characters, which never occur in the strings this development
evaluates). -/
def isJsWhitespace (c : Char) : Bool :=
  c = ' ' || c = '\t' || c = '\n' || c = '\r' || c = '\x0b' || c = '\x0c'

/-- Characters matched by the JavaScript regex `.` (any character except a
line terminator). -/
def dotMatch (c : Char) : Bool :=
  !(c = '\n' || c = '\r')

/-- Model of `String.prototype.trim` on character lists: drop leading and
trailing whitespace. -/
def jsTrim (l : List Char) : List Char :=
  ((l.dropWhile isJsWhitespace).reverse.dropWhile isJsWhitespace).reverse

/-- `String.prototype.trim`, lifted to `String`. -/
def jsTrimStr (s : String) : String :=
  ⟨jsTrim s.data⟩

/-- Model of `String.prototype.toLocaleLowerCase`/`toLowerCase` on the
characters that occur here (ASCII case mapping). -/
def jsToLower (s : String) : String :=
  ⟨s.data.map Char.toLower⟩

/-- Model of `String.prototype.startsWith`. -/
def jsStartsWith (s pre : String) : Bool :=
  pre.data.isPrefixOf s.data

/-- Emit a pending run of `n` consecutive newlines, collapsing it to a single
newline when `n ≥ 3`; this is the per-run action of the JavaScript
replacement `.replace(/\n{3,}/g, "\n")`. -/
def emitNLRun (n : Nat) : List Char :=
  if 3 ≤ n then ['\n'] else List.replicate n '\n'

/-- Left-to-right scan implementing `.replace(/\n{3,}/g, "\n")`: `n` counts
the newline run immediately before the current position, still pending. -/
def collapseNLGo (n : Nat) : List Char → List Char
  | [] => emitNLRun n
  | c :: cs =>
    if c = '\n' then collapseNLGo (n + 1) cs
    else emitNLRun n ++ c :: collapseNLGo 0 cs

/-- Model of the JavaScript replacement `.replace(/\n{3,}/g, "\n")`: every
maximal run of three or more newlines becomes a single newline; shorter runs
are kept. -/
def collapseNL (l : List Char) : List Char :=
  collapseNLGo 0 l

/-- `.replace(/\n{3,}/g, "\n")`, lifted to `String`. -/
def collapseNLStr (s : String) : String :=
  ⟨collapseNL s.data⟩

/-- Decides whether a character list contains three consecutive newlines. -/
def hasTripleNL : List Char → Bool
  | a :: b :: c :: rest =>
    (a = '\n' && b = '\n' && c = '\n') || hasTripleNL (b :: c :: rest)
  | _ => false

/-! ## The two math regexes of `src/mod.ts` (lines 145-146)

`BLOCK_MATH_REGEXP = /\$\$\s(.+?)\s\$\$/g` and
`INLINE_MATH_REGEXP = /\s\$((?=\S).*?(?=\S))\$/g`.  `stripSplitBySections`
replaces every match of both with the empty string before tokenizing
(lines 571-574).  The models below implement exactly these two regexes:
leftmost match, lazy (shortest) body, `\s` = `isJsWhitespace`,
`.` = `dotMatch`, and global replacement resuming after each match. -/

/-- Does the character list begin with `\s\$\$`, the terminator of the block
math pattern? -/
def blockMathTermAt : List Char → Bool
  | w :: '$' :: '$' :: _ => isJsWhitespace w
  | _ => false

/-- Scan for the lazy body `(.+?)` of `BLOCK_MATH_REGEXP`: consume
`.`-matchable characters one at a time (at least one) and stop as soon as
the terminator `\s\$\$` follows.  Returns the body length. -/
def blockMathBody (consumed : Nat) : List Char → Option Nat
  | [] => none
  | c :: cs =>
    if dotMatch c then
      if blockMathTermAt cs then some (consumed + 1) else blockMathBody (consumed + 1) cs
    else none

/-- Length of the match of `BLOCK_MATH_REGEXP` anchored at the head of the
list, if any: `\$\$`, one `\s`, a lazy nonempty `.`-body, one `\s`, `\$\$`. -/
def matchBlockMathAt : List Char → Option Nat
  | '$' :: '$' :: w :: rest =>
    if isJsWhitespace w then
      match blockMathBody 0 rest with
      | some k => some (3 + k + 3)
      | none => none
    else none
  | _ => none

/-- Global replacement of `BLOCK_MATH_REGEXP` matches by the empty string,
scanning left to right; the fuel argument bounds the number of steps and is
instantiated with the input length. -/
def removeBlockMathGo : Nat → List Char → List Char
  | 0, l => l
  | _, [] => []
  | fuel + 1, c :: cs =>
    match matchBlockMathAt (c :: cs) with
    | some n => removeBlockMathGo fuel ((c :: cs).drop n)
    | none => c :: removeBlockMathGo fuel cs

/-- `markdown.replace(BLOCK_MATH_REGEXP, "")` (every match is at least seven
characters long, so the length of the input is sufficient fuel). -/
def removeBlockMath (s : String) : String :=
  ⟨removeBlockMathGo s.data.length s.data⟩

/-- Scan for the lazy body `((?=\S).*?(?=\S))` of `INLINE_MATH_REGEXP`
followed by the closing `\$`: stop at the first `$` (the trailing lookahead
`(?=\S)` is satisfied by `$` itself, which is a non-space character); body
characters must be `.`-matchable.  Returns the body length. -/
def inlineMathBody (consumed : Nat) : List Char → Option Nat
  | [] => none
  | '$' :: _ => some consumed
  | c :: cs =>
    if dotMatch c then inlineMathBody (consumed + 1) cs else none

/-- Length of the match of `INLINE_MATH_REGEXP` anchored at the head of the
list, if any: one `\s`, `\$`, the leading lookahead `(?=\S)` (the next
character exists and is not a space), a lazy `.`-body, `\$`. -/
def matchInlineMathAt : List Char → Option Nat
  | w :: '$' :: c :: rest =>
    if isJsWhitespace w && !isJsWhitespace c then
      match inlineMathBody 0 (c :: rest) with
      | some k => some (2 + k + 1)
      | none => none
    else none
  | _ => none

/-- Global replacement of `INLINE_MATH_REGEXP` matches by the empty string,
scanning left to right. -/
def removeInlineMathGo : Nat → List Char → List Char
  | 0, l => l
  | _, [] => []
  | fuel + 1, c :: cs =>
    match matchInlineMathAt (c :: cs) with
    | some n => removeInlineMathGo fuel ((c :: cs).drop n)
    | none => c :: removeInlineMathGo fuel cs

/-- `markdown.replace(INLINE_MATH_REGEXP, "")`. -/
def removeInlineMath (s : String) : String :=
  ⟨removeInlineMathGo s.data.length s.data⟩

/-! ## External text collaborators -/

/-- A representative shortcode table for the emoji collaborator. -/
def emojiTable : List (String × String) :=
  [("smile", "😄"), ("heart", "❤️"), ("rocket", "🚀")]

/-- Longest shortcode of `emojiTable` matching at the head of the list,
together with its replacement. -/
def emojiLookup (l : List Char) : Option (String × List Char) :=
  emojiTable.foldl
    (fun acc p =>
      match acc with
      | some r => some r
      | none =>
        let pat := p.1.data ++ [':']
        if pat.isPrefixOf l then some (p.2, l.drop pat.length) else none)
    none

/-- Modelled external collaborator: `emojify` from the `emoji` package
replaces every `:name:` occurrence whose name is a known shortcode with the
corresponding emoji and leaves everything else unchanged.  The spec treats
emoji name substitution as an out-of-scope text transform applied before
tokenization. -/
def emojifyGo : Nat → List Char → List Char
  | 0, l => l
  | _, [] => []
  | fuel + 1, c :: cs =>
    if c = ':' then
      match emojiLookup cs with
      | some (emo, rest) => emo.data ++ emojifyGo fuel rest
      | none => c :: emojifyGo fuel cs
    else c :: emojifyGo fuel cs

/-- `emojify(markdown)`: see `emojifyGo`. -/
def emojify (s : String) : String :=
  ⟨emojifyGo s.data.length s.data⟩

/-- Modelled external collaborator: HTML entity escaping as performed by
`he.encode` on the characters it always escapes (`&`, `<`, `>`, `"`, `'`);
`he` additionally escapes non-ASCII characters numerically, which never
matters for the properties proved here. -/
def heEncodeChar (c : Char) : List Char :=
  if c = '&' then "&amp;".data
  else if c = '<' then "&lt;".data
  else if c = '>' then "&gt;".data
  else if c = '"' then "&quot;".data
  else if c = '\'' then "&#x27;".data
  else [c]

/-- `he.encode(code)`, lifted to `String`. -/
def heEncode (s : String) : String :=
  ⟨s.data.flatMap heEncodeChar⟩

/-! ## The slug registry (`github-slugger`), `Renderer`, and render options -/

/-- Modelled external collaborator: the text normalization step of
`github-slugger` as the spec describes it (lowercase, whitespace to hyphen,
strip disallowed punctuation). -/
def slugify (s : String) : String :=
  ⟨(s.data.map Char.toLower).filterMap (fun c =>
    if c = ' ' then some '-'
    else if c.isAlphanum || c = '-' || c = '_' then some c
    else none)⟩

/-- Does the occurrence map of the slug registry have an entry for `s`? -/
def occHas (occ : List (String × Nat)) (s : String) : Bool :=
  occ.any (fun p => p.1 = s)

/-- Counter stored for `s` in the occurrence map (`0` when absent; the
JavaScript code only reads counters of present keys). -/
def occGet (occ : List (String × Nat)) (s : String) : Nat :=
  match occ.find? (fun p => p.1 = s) with
  | some p => p.2
  | none => 0

/-- `occurrences[s] = n`: update in place when the key is present, append
otherwise (JavaScript property insertion order). -/
def occSet (occ : List (String × Nat)) (s : String) (n : Nat) : List (String × Nat) :=
  if occHas occ s then occ.map (fun p => if p.1 = s then (s, n) else p)
  else occ ++ [(s, n)]

/-- Modelled external collaborator: the deduplication loop of
`GithubSlugger.slug` — while the candidate slug is already taken, increment
the counter of the original slug and retry with `original + "-" + counter`.
The loop is written with explicit fuel; `occ.length + 2` is proved
sufficient below. -/
def slugLoop (original : String) (occ : List (String × Nat)) (result : String) :
    Nat → String × List (String × Nat)
  | 0 => (result, occ)
  | fuel + 1 =>
    if occHas occ result then
      let c := occGet occ original + 1
      slugLoop original (occSet occ original c) (original ++ "-" ++ Nat.repr c) fuel
    else (result, occ)

/-- The slug registry: a per-`Renderer` occurrence map from slugs to repeat
counters (`GithubSlugger` instance state). -/
structure SluggerState where
  occ : List (String × Nat)
deriving DecidableEq, Repr

/-- The fresh registry created by the `Renderer` constructor
(`new GithubSlugger()`, `src/mod.ts` line 50). -/
def SluggerState.empty : SluggerState := ⟨[]⟩

/-- Well-formedness of a registry: its keys are pairwise distinct, as is
invariably true of JavaScript object keys. -/
def SluggerState.WF (st : SluggerState) : Prop :=
  (st.occ.map Prod.fst).Nodup

/-- Modelled external collaborator: `GithubSlugger.slug(value)` — slugify,
deduplicate against the occurrence map, then record the returned slug with
counter `0`. -/
def SluggerState.slug (st : SluggerState) (value : String) : String × SluggerState :=
  let original := slugify value
  let (result, occ) := slugLoop original st.occ original (st.occ.length + 2)
  (result, ⟨occSet occ result 0⟩)

/-- Per-tag class allow-list entry of `sanitize-html`: either every class is
allowed for the tag (`true` in JavaScript) or only those matching one of the
listed patterns (a literal class name, or a prefix pattern ending in `*`). -/
inductive ClassPolicy where
  | allowAll : ClassPolicy
  | allowList (patterns : List String) : ClassPolicy
deriving DecidableEq, Repr

/-- One entry of a per-tag attribute allow-list of `sanitize-html`: a plain
attribute name (possibly a `*`-suffixed prefix pattern) or a name restricted
to an enumerated set of values (used for `input[type]`). -/
inductive AllowedAttribute where
  | attrName (pat : String) : AllowedAttribute
  | attrNameValues (pat : String) (values : List String) : AllowedAttribute
deriving DecidableEq, Repr

/-- Lookup in a JavaScript-object-like association list in which a later
entry for the same key overrides an earlier one (so that list append models
object spread `{...a, ...b}`). -/
def jget {α : Type} (r : List (String × α)) (k : String) : Option α :=
  match r.reverse.find? (fun p => p.1 = k) with
  | some p => some p.2
  | none => none

/-- `r[k] = v` on a JavaScript-object-like association list. -/
def jset {α : Type} (r : List (String × α)) (k : String) (v : α) : List (String × α) :=
  r ++ [(k, v)]

/-- The `Renderer` class (`src/mod.ts` lines 35-143): option snapshot plus
the per-instance slug registry `#slugger`. -/
structure Renderer where
  allowMath : Bool
  baseUrl : Option String
  slugger : SluggerState
deriving DecidableEq, Repr

/-- `RenderOptions` (`src/mod.ts` lines 190-213).  JavaScript `undefined`
fields are `none`/`false`/`[]` defaults; `renderer` holds the caller's
`Renderer` object when supplied. -/
structure RenderOptions where
  baseUrl : Option String := none
  mediaBaseUrl : Option String := none
  inline : Bool := false
  allowIframes : Bool := false
  allowMath : Bool := false
  disableHtmlSanitization : Bool := false
  renderer : Option Renderer := none
  allowedClasses : List (String × ClassPolicy) := []
  allowedTags : List String := []
  allowedAttributes : List (String × List AllowedAttribute) := []
  breaks : Bool := false

/-- The `Renderer` constructor (`src/mod.ts` lines 46-51): snapshot
`baseUrl` and `allowMath` and allocate a fresh slug registry. -/
def Renderer.new (opts : RenderOptions) : Renderer :=
  ⟨opts.allowMath, opts.baseUrl, SluggerState.empty⟩

/-- The renderer selected by `getOpts` (`src/mod.ts` line 184): the caller's
renderer when one is supplied (any object is truthy), otherwise a fresh
`Renderer` built from the options. -/
def getOptsRenderer (opts : RenderOptions) : Renderer :=
  match opts.renderer with
  | some r => r
  | none => Renderer.new opts

/-- The SVG anchor link emitted before every heading's text
(`src/mod.ts` line 71). -/
def anchorHtml (slug : String) : String :=
  "<a class=\"anchor\" aria-hidden=\"true\" tabindex=\"-1\" href=\"#" ++ slug ++
  "\"><svg class=\"octicon octicon-link\" viewBox=\"0 0 16 16\" width=\"16\" height=\"16\" aria-hidden=\"true\"><path fill-rule=\"evenodd\" d=\"M7.775 3.275a.75.75 0 001.06 1.06l1.25-1.25a2 2 0 112.83 2.83l-2.5 2.5a2 2 0 01-2.83 0 .75.75 0 00-1.06 1.06 3.5 3.5 0 004.95 0l2.5-2.5a3.5 3.5 0 00-4.95-4.95l-1.25 1.25zm-4.69 9.64a2 2 0 010-2.83l2.5-2.5a2 2 0 012.83 0 .75.75 0 001.06-1.06 3.5 3.5 0 00-4.95 0l-2.5 2.5a3.5 3.5 0 004.95 4.95l1.25-1.25a.75.75 0 00-1.06-1.06l-1.25 1.25a2 2 0 01-2.83 0z\"></path></svg></a>"

/-- `Renderer.heading` (`src/mod.ts` lines 65-72): draw a slug for the raw
heading text from the instance's slug registry and emit the heading element;
the updated registry (the mutated `#slugger`) is returned alongside. -/
def Renderer.heading (r : Renderer) (text : String) (level : Nat) (raw : String) :
    String × Renderer :=
  let (slug, st) := r.slugger.slug raw
  ("<h" ++ Nat.repr level ++ " id=\"" ++ slug ++ "\">" ++ anchorHtml slug ++ text ++
    "</h" ++ Nat.repr level ++ ">\n",
   { r with slugger := st })

/-- The `id` slugs `Renderer.heading` assigns to a document's headings (given
as the list of raw heading texts, in document order), threading the
registry exactly as repeated `Renderer.heading` calls do; returns the ids
and the final renderer state. -/
def renderHeadingIds (r : Renderer) : List String → List String × Renderer
  | [] => ([], r)
  | raw :: rest =>
    let (slug, st) := r.slugger.slug raw
    let (ids, r2) := renderHeadingIds { r with slugger := st } rest
    (slug :: ids, r2)

/-- The heading-id behaviour of one `render(markdown, opts)` call
(`src/mod.ts` lines 220-234 together with `getOpts`, line 184): the heading
ids are assigned by the renderer `getOpts` selects — a fresh one when the
caller supplied none, the caller's own object otherwise.  The returned
renderer state is what persists in the caller's `Renderer` after the call
(when the caller supplied one); a fresh renderer is discarded with the
call. -/
def renderSlugAssignment (opts : RenderOptions) (headingRaws : List String) :
    List String × Renderer :=
  renderHeadingIds (getOptsRenderer opts) headingRaws

/-! ## `Renderer.code` and `Renderer.link` -/

/-- External collaborators used by `Renderer.code`: the katex display-mode
renderer, the table of Prism grammars (by name), and the Prism highlighter. -/
structure CodeCollab where
  katexRenderDisplay : String → String
  prismGrammars : List String
  prismHighlight : String → String → String

/-- The language normalization of `Renderer.code` (`src/mod.ts` line 104):
`language?.split(",")?.[0].toLocaleLowerCase()` — the first comma-separated
segment (the characters before the first comma, which is what `split`'s
first element is), lowercased; `undefined` stays `undefined`. -/
def normalizeLanguage (language : Option String) : Option String :=
  language.map (fun s => jsToLower ⟨s.data.takeWhile (fun c => c ≠ ',')⟩)

/-- `Renderer.code` (`src/mod.ts` lines 101-120).  The grammar lookup
models `language && Object.hasOwnProperty.call(Prism.languages, language)`:
the empty string is falsy, so it never reaches the table. -/
def Renderer.code (collab : CodeCollab) (r : Renderer) (code : String)
    (language : Option String) : String :=
  let language := normalizeLanguage language
  if language = some "math" ∧ r.allowMath then
    collab.katexRenderDisplay code
  else
    let grammar : Option String :=
      match language with
      | some l => if l ≠ "" ∧ l ∈ collab.prismGrammars then some l else none
      | none => none
    match grammar with
    | none => "<pre><code class=\"notranslate\">" ++ heEncode code ++ "</code></pre>"
    | some l =>
      "<div class=\"highlight highlight-source-" ++ l ++ " notranslate\"><pre>" ++
        collab.prismHighlight code l ++ "</pre></div>"

/-- The `title` attribute fragment of `Renderer.link` (`src/mod.ts`
line 130): present exactly when the title is truthy (neither `null` nor the
empty string). -/
def linkTitleAttr (title : Option String) : String :=
  match title with
  | some t => if t ≠ "" then " title=\"" ++ t ++ "\"" else ""
  | none => ""

/-- `Renderer.link` (`src/mod.ts` lines 129-142).  `resolveUrl href base`
models `new URL(href, base).href`, returning `none` when the constructor
throws; in that case the original `href` is kept.  `baseUrl` is checked for
truthiness (`some ""` is falsy). -/
def Renderer.link (resolveUrl : String → String → Option String) (r : Renderer)
    (href : String) (title : Option String) (text : String) : String :=
  let titleAttr := linkTitleAttr title
  if jsStartsWith href "#" then
    "<a href=\"" ++ href ++ "\"" ++ titleAttr ++ ">" ++ text ++ "</a>"
  else
    let href :=
      match r.baseUrl with
      | some base => if base ≠ "" then (resolveUrl href base).getD href else href
      | none => href
    "<a href=\"" ++ href ++ "\"" ++ titleAttr ++ " rel=\"noopener noreferrer\">" ++
      text ++ "</a>"

/-! ## The token model and the plain-text reduction projection -/

/-- The token tree produced by the `marked` lexer, restricted to the fields
`stripTokens` reads: the discriminating `type`, the `raw` source slice, the
child list `tokens` where the type has one (optional on `text`), and the
type-specific fields (`depth`, `lang`/`text`, `header`/`rows`, `items`,
`title`). -/
inductive Token where
  | space (raw : String)
  | code (raw : String) (lang : Option String) (text : String)
  | heading (raw : String) (depth : Nat) (tokens : List Token)
  | table (headerCells : List (List Token)) (rows : List (List (List Token)))
  | hr (raw : String)
  | blockquote (raw : String) (tokens : List Token)
  | list (raw : String) (items : List Token)
  | listItem (raw : String) (tokens : List Token)
  | paragraph (raw : String) (tokens : List Token)
  | html (raw : String) (text : String)
  | text (raw : String) (tokens : Option (List Token))
  | defTok (raw : String)
  | escape (raw : String)
  | link (raw : String) (href : String) (title : Option String) (tokens : List Token)
  | image (raw : String) (title : Option String) (text : String)
  | strong (raw : String) (tokens : List Token)
  | em (raw : String) (tokens : List Token)
  | codespan (raw : String) (text : String)
  | br (raw : String)
  | del (raw : String) (tokens : List Token)
deriving Repr

/-- The `MarkdownSections` interface (`src/mod.ts` lines 554-561). -/
structure MarkdownSections where
  header : String
  depth : Nat
  content : String
deriving DecidableEq, Repr

/-- `sections[index][header ? "header" : "content"] += s`. -/
def appendAt (sections : List MarkdownSections) (index : Nat) (header : Bool)
    (s : String) : List MarkdownSections :=
  sections.modify
    (fun sec =>
      if header then { sec with header := sec.header ++ s }
      else { sec with content := sec.content ++ s })
    index

/-- The per-section normalization applied when a heading closes the current
section (`src/mod.ts` lines 436-443): `.trim().replace(/\n{3,}/g, "\n")` on
both fields. -/
def normalizeAt (sections : List MarkdownSections) (index : Nat) :
    List MarkdownSections :=
  sections.modify
    (fun sec =>
      { sec with
        header := collapseNLStr (jsTrimStr sec.header)
        content := collapseNLStr (jsTrimStr sec.content) })
    index

/-- `sections.push({ header: "", depth, content: "" })`. -/
def appendSection (sections : List MarkdownSections) (depth : Nat) :
    List MarkdownSections :=
  sections ++ [⟨"", depth, ""⟩]

/-- Modelled external collaborator: `sanitizeHtml(text, { allowedTags: [],
allowedAttributes: {} })` as used on embedded-HTML tokens (`src/mod.ts`
lines 492-496) — all markup between `<` and `>` is removed and only text
content is kept. -/
def stripHtmlGo : Nat → List Char → List Char
  | 0, l => l
  | _, [] => []
  | fuel + 1, c :: cs =>
    if c = '<' then stripHtmlGo fuel ((cs.dropWhile (fun d => d ≠ '>')).drop 1)
    else c :: stripHtmlGo fuel cs

/-- String form of `stripHtmlGo`. -/
def stripHtml (s : String) : String :=
  ⟨stripHtmlGo s.data.length s.data⟩

/-- JavaScript truthiness of the optional `title` field of an image token
(`if (token.title)`): `null` and the empty string are falsy. -/
def imgTitleTruthy : Option String → Bool
  | some t => t ≠ ""
  | none => false

mutual

/-- One iteration of the `stripTokens` loop (`src/mod.ts` lines 434-529)
for a single token, with the loop-local `index` made explicit; returns the
updated sections list and the updated index.  In source order: (1) a
heading normalizes the current section and pushes a fresh one at the
heading's depth, incrementing `index`; (2) if the token has a `tokens`
child list, recurse into it as a fresh `stripTokens` call (whose own index
restarts at `sections.length - 1`) with header-mode iff this token is a
heading; (3) the per-type `switch` appends to `sections[index]`'s header or
content per the ambient `header` flag — the `list` and `table` cases spawn
fresh `stripTokens` calls (index restarting at `sections.length - 1`,
ambient header forwarded), while their own space/newline separators go to
the ambient `sections[index]`. -/
def stripToken : Token → List MarkdownSections → Nat → Bool →
    List MarkdownSections × Nat
  | .space raw, sections, index, header =>
    (appendAt sections index header raw, index)
  | .code _ lang text, sections, index, header =>
    (if lang ≠ some "math" then appendAt sections index header text else sections, index)
  | .heading _ depth children, sections, index, header =>
    let _ := header
    let sections := appendSection (normalizeAt sections index) depth
    let index := index + 1
    (stripTokensFrom children sections (sections.length - 1) true, index)
  | .table headerCells rows, sections, index, header =>
    let sections := stripCells headerCells sections index header
    let sections := appendAt sections index header "\n"
    (stripRows rows sections index header, index)
  | .hr _, sections, index, _ => (sections, index)
  | .blockquote _ children, sections, index, _ =>
    (stripTokensFrom children sections (sections.length - 1) false, index)
  | .list _ items, sections, index, header =>
    (stripTokensFrom items sections (sections.length - 1) header, index)
  | .listItem _ children, sections, index, header =>
    let sections := stripTokensFrom children sections (sections.length - 1) false
    (appendAt sections index header "\n", index)
  | .paragraph _ children, sections, index, _ =>
    (stripTokensFrom children sections (sections.length - 1) false, index)
  | .html _ text, sections, index, header =>
    (appendAt sections index header (jsTrimStr (stripHtml text) ++ "\n\n"), index)
  | .text _ (some children), sections, index, _ =>
    (stripTokensFrom children sections (sections.length - 1) false, index)
  | .text raw none, sections, index, header =>
    (appendAt sections index header raw, index)
  | .defTok _, sections, index, _ => (sections, index)
  | .escape _, sections, index, _ => (sections, index)
  | .link _ _ _ children, sections, index, _ =>
    (stripTokensFrom children sections (sections.length - 1) false, index)
  | .image _ title text, sections, index, header =>
    (if imgTitleTruthy title then appendAt sections index header (title.getD "")
     else appendAt sections index header text, index)
  | .strong _ children, sections, index, _ =>
    (stripTokensFrom children sections (sections.length - 1) false, index)
  | .em _ children, sections, index, _ =>
    (stripTokensFrom children sections (sections.length - 1) false, index)
  | .codespan _ text, sections, index, header =>
    (appendAt sections index header text, index)
  | .br _, sections, index, _ => (sections, index)
  | .del _ children, sections, index, _ =>
    (stripTokensFrom children sections (sections.length - 1) false, index)
  termination_by structural t => t

/-- The `stripTokens` loop over a token list: fold `stripToken`, threading
sections and the loop-local index. -/
def stripTokensFrom : List Token → List MarkdownSections → Nat → Bool →
    List MarkdownSections
  | [], sections, _, _ => sections
  | t :: ts, sections, index, header =>
    let r := stripToken t sections index header
    stripTokensFrom ts r.1 r.2 header
  termination_by structural l => l

/-- The per-cell loop of the `table` case: recurse into each cell's tokens
(as a fresh `stripTokens` call) and append a space after each cell at the
caller's `index`. -/
def stripCells : List (List Token) → List MarkdownSections → Nat → Bool →
    List MarkdownSections
  | [], sections, _, _ => sections
  | cell :: cells, sections, index, header =>
    let sections := stripTokensFrom cell sections (sections.length - 1) header
    let sections := appendAt sections index header " "
    stripCells cells sections index header
  termination_by structural l => l

/-- The per-row loop of the `table` case: each row's cells followed by a
newline. -/
def stripRows : List (List (List Token)) → List MarkdownSections → Nat → Bool →
    List MarkdownSections
  | [], sections, _, _ => sections
  | row :: rows, sections, index, header =>
    let sections := stripCells row sections index header
    let sections := appendAt sections index header "\n"
    stripRows rows sections index header
  termination_by structural l => l

end

/-- `stripTokens(tokens, sections, header)` (`src/mod.ts` lines 427-530):
`index` starts at `sections.length - 1`. -/
def stripTokens (tokens : List Token) (sections : List MarkdownSections)
    (header : Bool) : List MarkdownSections :=
  stripTokensFrom tokens sections (sections.length - 1) header

/-! ## The Token Collaborator (lexer) model -/

/-- Split off the current line (up to, not including, the next newline). -/
def takeLine (l : List Char) : List Char × List Char :=
  (l.takeWhile (fun c => c ≠ '\n'), l.dropWhile (fun c => c ≠ '\n'))

/-- Does a heading start here? — `marked`'s block heading rule
`^(#{1,6})(?=\s|$)`: one to six `#` followed by whitespace or end of
input. -/
def isHeadingStart (l : List Char) : Bool :=
  let hashes := l.takeWhile (fun c => c = '#')
  decide (1 ≤ hashes.length) && decide (hashes.length ≤ 6) &&
    (match l.drop hashes.length with
     | [] => true
     | c :: _ => isJsWhitespace c)

/-- Gather the lines of one paragraph: a paragraph continues over single
newlines while the next line is nonempty and not a heading. Returns the
paragraph text (lines joined by newlines) and the unconsumed remainder. -/
def paraGather : Nat → List Char → List Char × List Char
  | 0, l => ([], l)
  | fuel + 1, l =>
    let line := (takeLine l).1
    let rest := (takeLine l).2
    match rest with
    | '\n' :: rest2 =>
      match rest2 with
      | [] => (line, rest)
      | c :: _ =>
        if c = '\n' || isHeadingStart rest2 then (line, rest)
        else
          let more := paraGather fuel rest2
          (line ++ '\n' :: more.1, more.2)
    | _ => (line, rest)

/-- Modelled from the spec: the Token Collaborator's `tokenize` (the
`marked` lexer, an external service in §2 of the spec), on the fragment of
Markdown the claims exercise — heading lines (`#{1,6} text`, consuming the
newline run that follows, with the heading text trimmed and inline-lexed to
a single text token), blank-line runs (`space` tokens carrying their raw
newlines), and plain paragraphs (inline-lexed to a single text token). -/
def lexModelGo : Nat → List Char → List Token
  | 0, _ => []
  | _, [] => []
  | fuel + 1, c :: cs =>
    let l := c :: cs
    if c = '\n' then
      let run := l.takeWhile (fun d => d = '\n')
      Token.space ⟨run⟩ :: lexModelGo fuel (l.dropWhile (fun d => d = '\n'))
    else if isHeadingStart l then
      let hashes := l.takeWhile (fun d => d = '#')
      let afterHash := l.drop hashes.length
      let line := (takeLine afterHash).1
      let afterLine := (takeLine afterHash).2
      let rest := afterLine.dropWhile (fun d => d = '\n')
      let txt := jsTrim line
      let raw : String := ⟨l.take (l.length - rest.length)⟩
      let children : List Token :=
        if txt.isEmpty then [] else [Token.text ⟨txt⟩ none]
      Token.heading raw hashes.length children :: lexModelGo fuel rest
    else
      let para := paraGather (fuel + 1) l
      let txt : String := ⟨para.1⟩
      Token.paragraph txt (if txt.isEmpty then [] else [Token.text txt none]) ::
        lexModelGo fuel para.2

/-- `tokenize(text)`: see `lexModelGo`. -/
def lexModel (s : String) : List Token :=
  lexModelGo (s.data.length + 1) s.data

/-! ## `stripSplitBySections` and `strip` -/

/-- `stripSplitBySections` (`src/mod.ts` lines 567-588): emojify, delete all
`BLOCK_MATH_REGEXP` matches, delete all `INLINE_MATH_REGEXP` matches — in
that order and unconditionally (the options are only forwarded to the
lexer's configuration, which the modelled fragment does not depend on) —
then tokenize and fold the tokens into sections starting from the single
root section. -/
def stripSplitBySections (markdown : String) (opts : RenderOptions := {}) :
    List MarkdownSections :=
  let md := removeInlineMath (removeBlockMath (emojify markdown))
  let tokens := lexModel md
  let _ := opts
  stripTokens tokens [⟨"", 0, ""⟩] false

/-- The final assembly of `strip` (`src/mod.ts` lines 593-597):
`header + "\n\n" + content` per section, sections joined by `"\n\n"`,
trimmed, newline runs of three or more collapsed, one newline appended. -/
def stripJoin (sections : List MarkdownSections) : String :=
  String.intercalate "\n\n" (sections.map (fun s => s.header ++ "\n\n" ++ s.content))

/-- `strip(markdown, opts)` (`src/mod.ts` lines 593-597). -/
def strip (markdown : String) (opts : RenderOptions := {}) : String :=
  collapseNLStr (jsTrimStr (stripJoin (stripSplitBySections markdown opts))) ++ "\n"

/-! ## The sanitization gate -/

/-- HTML as the sanitizer sees it after parsing: text nodes and elements
with a tag name, ordinary attributes, the (pre-split) token list of the
`class` attribute, and children.  The `class` attribute is carried by the
`classes` field and never appears in `attribs`. -/
inductive Html where
  | text (s : String)
  | elem (tag : String) (attribs : List (String × String)) (classes : List String)
      (children : List Html)
deriving Repr

/-- Glob matching as `sanitize-html` applies it to attribute-name and class
patterns: a trailing `*` matches any suffix, otherwise the match is
literal. -/
def globMatch (pat : String) (s : String) : Bool :=
  if pat.data.getLast? = some '*' then pat.data.dropLast.isPrefixOf s.data
  else pat = s

/-- Modelled external collaborator: the URL schemes `sanitize-html` allows
by default (`render` does not override them). -/
def allowedSchemes : List String := ["http", "https", "ftp", "mailto", "tel"]

/-- Characters removed from a URL before vetting it
(`sanitize-html`'s `naughtyHref` strips `[\x00-\x20]`). -/
def stripUrlControl (v : String) : List Char :=
  v.data.filter (fun c => decide (0x20 < c.toNat))

/-- Parse a URL scheme: a leading letter followed by letters, digits, `.`,
`-` or `+`, terminated by `:`. -/
def schemeScan (acc : List Char) : List Char → Option (List Char)
  | [] => none
  | ':' :: _ => some acc
  | c :: rest =>
    if c.isAlphanum || c = '.' || c = '-' || c = '+' then schemeScan (acc ++ [c]) rest
    else none

/-- The scheme of a (control-stripped) URL, if it has one. -/
def schemeOf : List Char → Option (List Char)
  | c :: rest => if c.isAlpha then schemeScan [c] rest else none
  | [] => none

/-- Does the (control-stripped) URL begin with two slash-like characters
(`/^[/\\]{2}/`), i.e. is it protocol-relative? -/
def isTwoSlash : List Char → Bool
  | a :: b :: _ => (a = '/' || a = '\\') && (b = '/' || b = '\\')
  | _ => false

/-- Has the attribute value, stripped of control characters, the
protocol-relative form `//host/...`? -/
def isProtocolRelativeUrl (v : String) : Bool :=
  isTwoSlash (stripUrlControl v)

/-- Modelled external collaborator: the URL vetting of `sanitize-html`
(`naughtyHref`): strip control characters; a URL with a scheme is allowed
iff the scheme is allow-listed; a scheme-less URL is allowed unless it is
protocol-relative while `allowProtocolRelative` is off. -/
def urlOk (allowProtocolRelative : Bool) (v : String) : Bool :=
  let s := stripUrlControl v
  match schemeOf s with
  | some sch => allowedSchemes.contains (jsToLower ⟨sch⟩)
  | none => if isTwoSlash s then allowProtocolRelative else true

/-- The attributes whose values `sanitize-html` vets as URLs: its default
`allowedSchemesAppliedToAttributes` is `href`, `src` and `cite`, and
`render` does not override it.  (`srcset` gets a separate per-candidate
vetting in the library, but no tag of `render`'s configuration allows
`srcset`, so that path is unreachable here; `poster` is allow-listed on
`video` by `render` yet not URL-vetted at all.) -/
def urlAttributes : List String := ["href", "src", "cite"]

/-- Does one allow-list entry admit the attribute `n` with value `v`? -/
def attrEntryMatches (e : AllowedAttribute) (n v : String) : Bool :=
  match e with
  | .attrName pat => globMatch pat n
  | .attrNameValues pat values => globMatch pat n && values.contains v

/-- The configuration `render` hands to `sanitize-html`
(`src/mod.ts` lines 396-411), at the level of resolved rule tables. -/
structure SanitizeConfig where
  allowedTags : List String
  allowedAttributes : List (String × List AllowedAttribute)
  allowedClasses : List (String × ClassPolicy)
  allowProtocolRelative : Bool

/-- Is the attribute `n` (with value `v`) kept on a `tag` element?  Per-tag
entries and the wildcard-tag `*` entries both apply; URL-valued attributes
must additionally pass `urlOk`. -/
def attrOk (cfg : SanitizeConfig) (tag n v : String) : Bool :=
  let entries := ((jget cfg.allowedAttributes tag).getD []) ++
    ((jget cfg.allowedAttributes "*").getD [])
  entries.any (fun e => attrEntryMatches e n v) &&
    (if urlAttributes.contains n then urlOk cfg.allowProtocolRelative v else true)

/-- Is the class token `c` kept on a `tag` element? -/
def classOk (cfg : SanitizeConfig) (tag c : String) : Bool :=
  match jget cfg.allowedClasses tag with
  | some .allowAll => true
  | some (.allowList patterns) => patterns.any (fun pat => globMatch pat c)
  | none => false

/-- `transformMedia` (`src/mod.ts` lines 293-302): when both the media base
URL and the `src` attribute are truthy (non-empty), rewrite `src` to
`new URL(src, mediaBaseUrl).href` — modelled by the `resolveUrl`
parameter — and on resolution failure delete the `src` attribute instead. -/
def transformMedia (resolveUrl : String → String → Option String)
    (mediaBaseUrl : Option String) (tagName : String)
    (attribs : List (String × String)) : String × List (String × String) :=
  match mediaBaseUrl with
  | some base =>
    if base ≠ "" then
      match jget attribs "src" with
      | some src =>
        if src ≠ "" then
          match resolveUrl src base with
          | some r => (tagName, attribs.map (fun p => if p.1 = "src" then ("src", r) else p))
          | none => (tagName, attribs.filter (fun p => p.1 ≠ "src"))
        else (tagName, attribs)
      | none => (tagName, attribs)
    else (tagName, attribs)
  | none => (tagName, attribs)

/-- Modelled external collaborator: the tags whose text content
`sanitize-html` discards along with the tag (`nonTextTags`). -/
def nonTextTags : List String := ["script", "style", "textarea", "option"]

/-- The filtering step of the sanitizer on the (possibly transformed) tag
name and attribute list, given the already-sanitized children: keep an
allow-listed tag with its attributes and classes filtered by
`attrOk`/`classOk`; discard a disallowed tag — dropping its content
entirely for `nonTextTags`, splicing the sanitized children otherwise. -/
def sanitizeElem (cfg : SanitizeConfig) (ta : String × List (String × String))
    (classes : List String) (kids : List Html) : List Html :=
  if ta.1 ∈ cfg.allowedTags then
    [.elem ta.1 (ta.2.filter (fun p => attrOk cfg ta.1 p.1 p.2))
      (classes.filter (fun c => classOk cfg ta.1 c)) kids]
  else if ta.1 ∈ nonTextTags then []
  else kids

mutual

/-- Modelled external collaborator: the element-level filtering contract of
`sanitize-html` as configured by `render` (spec §4.2): apply the
`img`/`video` transform, then filter per `sanitizeElem`. -/
def sanitizeNode (cfg : SanitizeConfig) (resolveUrl : String → String → Option String)
    (mediaBaseUrl : Option String) : Html → List Html
  | .text s => [.text s]
  | .elem tag attribs classes children =>
    sanitizeElem cfg
      (if tag = "img" || tag = "video" then transformMedia resolveUrl mediaBaseUrl tag attribs
       else (tag, attribs))
      classes (sanitizeList cfg resolveUrl mediaBaseUrl children)
  termination_by structural h => h

/-- `sanitizeNode` over a node list. -/
def sanitizeList (cfg : SanitizeConfig) (resolveUrl : String → String → Option String)
    (mediaBaseUrl : Option String) : List Html → List Html
  | [] => []
  | h :: t =>
    sanitizeNode cfg resolveUrl mediaBaseUrl h ++ sanitizeList cfg resolveUrl mediaBaseUrl t
  termination_by structural l => l

end

mutual

/-- All elements of an HTML forest, as `(tag, attribs, classes)` triples in
document order. -/
def elemsOfNode : Html → List (String × List (String × String) × List String)
  | .text _ => []
  | .elem tag attribs classes children => (tag, attribs, classes) :: elemsOfList children

/-- `elemsOfNode` over a node list. -/
def elemsOfList : List Html → List (String × List (String × String) × List String)
  | [] => []
  | h :: t => elemsOfNode h ++ elemsOfList t

end

/-- The tags occurring in an HTML forest. -/
def tagsOf (doc : List Html) : List String :=
  (elemsOfList doc).map (fun e => e.1)

/-! ## `render`'s resolved allow-lists (`src/mod.ts` lines 241-424) -/

/-- Modelled external collaborator: `sanitizeHtml.defaults.allowedTags` of
the `sanitize-html` package (its fixed baseline; note it contains neither
`script`, `style` nor `iframe`). -/
def sanitizeHtmlDefaultAllowedTags : List String :=
  ["address", "article", "aside", "footer", "header", "h1", "h2", "h3", "h4",
   "h5", "h6", "hgroup", "main", "nav", "section", "blockquote", "dd", "div",
   "dl", "dt", "figcaption", "figure", "hr", "li", "main", "ol", "p", "pre",
   "ul", "a", "abbr", "b", "bdi", "bdo", "br", "cite", "code", "data", "dfn",
   "em", "i", "kbd", "mark", "q", "rb", "rp", "rt", "rtc", "ruby", "s",
   "samp", "small", "span", "strong", "sub", "sup", "time", "u", "var",
   "wbr", "caption", "col", "colgroup", "table", "tbody", "td", "tfoot",
   "th", "thead", "tr"]

/-- Modelled external collaborator:
`sanitizeHtml.defaults.allowedAttributes`. -/
def sanitizeHtmlDefaultAllowedAttributes : List (String × List AllowedAttribute) :=
  [("a", [.attrName "href", .attrName "name", .attrName "target"]),
   ("img", [.attrName "src", .attrName "srcset", .attrName "alt",
            .attrName "title", .attrName "width", .attrName "height",
            .attrName "loading"])]

/-- The MathML tags appended when math is enabled
(`src/mod.ts` lines 258-289). -/
def mathAllowedTags : List String :=
  ["math", "maction", "annotation", "annotation-xml", "menclose", "merror",
   "mfenced", "mfrac", "mi", "mmultiscripts", "mn", "mo", "mover", "mpadded",
   "mphantom", "mprescripts", "mroot", "mrow", "ms", "semantics", "mspace",
   "msqrt", "mstyle", "msub", "msup", "msubsup", "mtable", "mtd", "mtext",
   "mtr"]

/-- `defaultAllowedTags` (`src/mod.ts` lines 241-290): the `sanitize-html`
baseline plus the GFM constructs, plus `iframe` when iframes are allowed,
plus the MathML family when math is allowed. -/
def defaultAllowedTags (opts : RenderOptions) : List String :=
  let l := sanitizeHtmlDefaultAllowedTags ++
    ["img", "video", "svg", "path", "circle", "figure", "figcaption", "del",
     "details", "summary", "input"]
  let l := if opts.allowIframes then l ++ ["iframe"] else l
  if opts.allowMath then l ++ mathAllowedTags else l

/-- Modelled from the spec: `KATEX_CLASSES` is exported by the repository's
style module (`src/style.ts`, not among the provided sources); the spec
treats the katex class family as an option-gated extension of the `span`
class allow-list, and a representative list suffices for every property
proved here. -/
def KATEX_CLASSES : List String :=
  ["katex", "katex-display", "katex-html", "katex-mathml", "base", "strut",
   "mathnormal", "mord", "mrel", "mbin", "mopen", "mclose", "mfrac"]

/-- `defaultAllowedClasses` (`src/mod.ts` lines 304-342). -/
def defaultAllowedClasses (opts : RenderOptions) : List (String × ClassPolicy) :=
  [("div", .allowList ["highlight", "highlight-source-*", "notranslate",
      "markdown-alert", "markdown-alert-*"]),
   ("span", .allowList (["token", "keyword", "operator", "number", "boolean",
      "function", "string", "comment", "class-name", "regex",
      "regex-delimiter", "tag", "attr-name", "punctuation",
      "script-punctuation", "script", "plain-text", "property", "prefix",
      "line", "deleted", "inserted"] ++
      (if opts.allowMath then KATEX_CLASSES else []))),
   ("a", .allowList ["anchor"]),
   ("p", .allowList ["markdown-alert-title"]),
   ("svg", .allowList ["octicon", "octicon-alert", "octicon-link"]),
   ("h2", .allowList ["sr-only"]),
   ("section", .allowList ["footnotes"])]

/-- `defaultAllowedAttributes` (`src/mod.ts` lines 344-394): the
`sanitize-html` defaults spread first, then the literal's own entries (a
later entry for the same key — `img`, `a` — overrides the spread one, as
object spread does). -/
def defaultAllowedAttributes (opts : RenderOptions) : List (String × List AllowedAttribute) :=
  sanitizeHtmlDefaultAllowedAttributes ++
  [("img", [.attrName "src", .attrName "alt", .attrName "height",
            .attrName "width", .attrName "align", .attrName "title"]),
   ("video", [.attrName "src", .attrName "alt", .attrName "height",
              .attrName "width", .attrName "autoplay", .attrName "muted",
              .attrName "loop", .attrName "playsinline", .attrName "poster",
              .attrName "controls", .attrName "title"]),
   ("a", [.attrName "id", .attrName "aria-hidden", .attrName "href",
          .attrName "tabindex", .attrName "rel", .attrName "target",
          .attrName "title", .attrName "data-footnote-ref",
          .attrName "data-footnote-backref", .attrName "aria-label",
          .attrName "aria-describedby"]),
   ("svg", [.attrName "viewBox", .attrName "width", .attrName "height",
            .attrName "aria-hidden", .attrName "background"]),
   ("path", [.attrName "fill-rule", .attrName "d"]),
   ("circle", [.attrName "cx", .attrName "cy", .attrName "r",
               .attrName "stroke", .attrName "stroke-width",
               .attrName "fill", .attrName "alpha"]),
   ("span", if opts.allowMath then [.attrName "aria-hidden", .attrName "style"] else []),
   ("h1", [.attrName "id"]), ("h2", [.attrName "id"]),
   ("h3", [.attrName "id"]), ("h4", [.attrName "id"]),
   ("h5", [.attrName "id"]), ("h6", [.attrName "id"]),
   ("li", [.attrName "id"]),
   ("td", [.attrName "colspan", .attrName "rowspan", .attrName "align",
           .attrName "width"]),
   ("iframe", [.attrName "src", .attrName "width", .attrName "height"]),
   ("math", [.attrName "xmlns"]),
   ("annotation", [.attrName "encoding"]),
   ("details", [.attrName "open"]),
   ("section", [.attrName "data-footnotes"]),
   ("input", [.attrName "checked", .attrName "disabled",
              .attrNameValues "type" ["checkbox"]])]

/-- `mergeAttributes` (`src/mod.ts` lines 415-424): copy the defaults, then
for each tag of the customs set `merged[tag]` to the existing entry (or
`[]`) extended by the customs' entry. -/
def mergeAttributes (defaults customs : List (String × List AllowedAttribute)) :
    List (String × List AllowedAttribute) :=
  customs.foldl
    (fun merged p => jset merged p.1 (((jget merged p.1).getD []) ++ p.2))
    defaults

/-- The tag allow-list `render` passes to the sanitizer (line 401):
`[...defaultAllowedTags, ...opts.allowedTags ?? []]`. -/
def resolvedAllowedTags (opts : RenderOptions) : List String :=
  defaultAllowedTags opts ++ opts.allowedTags

/-- The class allow-list `render` passes to the sanitizer (line 406):
the object spread `{ ...defaultAllowedClasses, ...opts.allowedClasses }`. -/
def resolvedAllowedClasses (opts : RenderOptions) : List (String × ClassPolicy) :=
  defaultAllowedClasses opts ++ opts.allowedClasses

/-- The attribute allow-list `render` passes to the sanitizer
(lines 402-405). -/
def resolvedAllowedAttributes (opts : RenderOptions) : List (String × List AllowedAttribute) :=
  mergeAttributes (defaultAllowedAttributes opts) opts.allowedAttributes

/-- The full sanitizer configuration of the `sanitizeHtml` call
(`src/mod.ts` lines 396-411); note `allowProtocolRelative: false`. -/
def renderConfig (opts : RenderOptions) : SanitizeConfig :=
  { allowedTags := resolvedAllowedTags opts
    allowedAttributes := resolvedAllowedAttributes opts
    allowedClasses := resolvedAllowedClasses opts
    allowProtocolRelative := false }

/-- `opts.mediaBaseUrl ??= opts.baseUrl` (`src/mod.ts` line 221): `??=`
fills only `undefined`/`null`, so an empty string is kept. -/
def effectiveMediaBaseUrl (opts : RenderOptions) : Option String :=
  match opts.mediaBaseUrl with
  | some s => some s
  | none => opts.baseUrl

/-- The sanitization stage of `render` (`src/mod.ts` lines 236-412) on the
parsed HTML document: the parsed document is returned untouched when
`disableHtmlSanitization` is set (lines 236-238), and is otherwise filtered
by the sanitization gate under the resolved allow-lists, with the
`img`/`video` transform bound to the effective media base URL. -/
def renderSanitizationStage (resolveUrl : String → String → Option String)
    (opts : RenderOptions) (doc : List Html) : List Html :=
  if opts.disableHtmlSanitization then doc
  else sanitizeList (renderConfig opts) resolveUrl (effectiveMediaBaseUrl opts) doc

/-! ## Heading-depth spec functions for the section invariant -/

mutual

/-- The depths of the heading tokens of one token, in the order
`stripTokensFrom` encounters them (the heading itself first, then its
children, then — for tables — header cells and rows, then list items). -/
def headingDepthsTok : Token → List Nat
  | .heading _ d children => d :: headingDepthsList children
  | .blockquote _ children => headingDepthsList children
  | .paragraph _ children => headingDepthsList children
  | .listItem _ children => headingDepthsList children
  | .link _ _ _ children => headingDepthsList children
  | .strong _ children => headingDepthsList children
  | .em _ children => headingDepthsList children
  | .del _ children => headingDepthsList children
  | .text _ (some children) => headingDepthsList children
  | .table headerCells rows => headingDepthsCells headerCells ++ headingDepthsRows rows
  | .list _ items => headingDepthsList items
  | _ => []

/-- `headingDepthsTok` over a token list. -/
def headingDepthsList : List Token → List Nat
  | [] => []
  | t :: ts => headingDepthsTok t ++ headingDepthsList ts

/-- `headingDepthsList` over a cell list. -/
def headingDepthsCells : List (List Token) → List Nat
  | [] => []
  | cell :: cells => headingDepthsList cell ++ headingDepthsCells cells

/-- `headingDepthsCells` over a row list. -/
def headingDepthsRows : List (List (List Token)) → List Nat
  | [] => []
  | row :: rows => headingDepthsCells row ++ headingDepthsRows rows

end

/-! ## Decimal values of digit strings (for slug-suffix reasoning) -/

/-- Numeric value of a decimal digit character. -/
def decDigitVal (c : Char) : Nat := c.toNat - 48

/-- Value of a decimal digit string (most significant digit first). -/
def decValue (l : List Char) : Nat :=
  l.foldl (fun acc c => 10 * acc + decDigitVal c) 0

/-! # Theorems

## Record lookup and the allow-list merges -/

theorem jget_append {α : Type} (a b : List (String × α)) (k : String) :
    jget (a ++ b) k = (jget b k).or (jget a k) := by
  unfold jget
  rw [List.reverse_append, List.find?_append]
  cases hb : b.reverse.find? (fun p => p.1 = k) <;>
    cases ha : a.reverse.find? (fun p => p.1 = k) <;> simp [hb, ha]

theorem jget_jset {α : Type} (r : List (String × α)) (k : String) (v : α)
    (k' : String) : jget (jset r k v) k' = if k' = k then some v else jget r k' := by
  unfold jset
  rw [jget_append]
  unfold jget
  simp only [List.reverse_cons, List.reverse_nil, List.nil_append, List.find?]
  by_cases h : k' = k
  · simp [h]
  · simp [h, Ne.symm h]

theorem mergeAttributes_keeps_defaults (customs defaults : List (String × List AllowedAttribute))
    (tag : String) :
    ((jget defaults tag).getD []) <+: ((jget (mergeAttributes defaults customs) tag).getD []) := by
  induction customs generalizing defaults with
  | nil => exact List.prefix_refl _
  | cons p rest ih =>
    have step := ih (jset defaults p.1 (((jget defaults p.1).getD []) ++ p.2))
    refine List.IsPrefix.trans ?_ step
    rw [jget_jset]
    by_cases h : tag = p.1
    · subst h
      simp only [if_pos rfl, Option.getD_some]
      exact List.prefix_append _ _
    · simp only [if_neg h]
      exact List.prefix_refl _

/-! ## Soundness of the sanitization gate -/

theorem elemsOfList_append (a b : List Html) :
    elemsOfList (a ++ b) = elemsOfList a ++ elemsOfList b := by
  induction a with
  | nil => simp [elemsOfList]
  | cons h t ih => simp [elemsOfList, ih]

theorem sanitizeElem_sound (cfg : SanitizeConfig)
    (ta : String × List (String × String)) (classes : List String)
    (kids : List Html)
    (hkids : ∀ x ∈ elemsOfList kids,
      x.1 ∈ cfg.allowedTags ∧
      (∀ p ∈ x.2.1, attrOk cfg x.1 p.1 p.2 = true) ∧
      (∀ c ∈ x.2.2, classOk cfg x.1 c = true)) :
    ∀ x ∈ elemsOfList (sanitizeElem cfg ta classes kids),
      x.1 ∈ cfg.allowedTags ∧
      (∀ p ∈ x.2.1, attrOk cfg x.1 p.1 p.2 = true) ∧
      (∀ c ∈ x.2.2, classOk cfg x.1 c = true) := by
  intro x hx
  simp only [sanitizeElem] at hx
  split at hx
  · next hmem =>
    simp only [elemsOfList, elemsOfNode, List.append_nil] at hx
    rcases List.mem_cons.mp hx with rfl | hx2
    · refine ⟨hmem, ?_, ?_⟩
      · intro p hp
        exact (List.mem_filter.mp hp).2
      · intro c hc
        exact (List.mem_filter.mp hc).2
    · exact hkids x hx2
  · split at hx
    · exact absurd hx (by simp [elemsOfList])
    · exact hkids x hx

mutual

theorem sanitizeNode_sound (cfg : SanitizeConfig) (res : String → String → Option String)
    (mb : Option String) (h : Html) :
    ∀ x ∈ elemsOfList (sanitizeNode cfg res mb h),
      x.1 ∈ cfg.allowedTags ∧
      (∀ p ∈ x.2.1, attrOk cfg x.1 p.1 p.2 = true) ∧
      (∀ c ∈ x.2.2, classOk cfg x.1 c = true) := by
  match h with
  | .text s =>
    intro x hx
    exact absurd hx (by simp [sanitizeNode, elemsOfList, elemsOfNode])
  | .elem tag attribs classes children =>
    intro x hx
    simp only [sanitizeNode] at hx
    exact sanitizeElem_sound cfg _ classes _
      (sanitizeList_sound cfg res mb children) x hx

theorem sanitizeList_sound (cfg : SanitizeConfig) (res : String → String → Option String)
    (mb : Option String) (doc : List Html) :
    ∀ x ∈ elemsOfList (sanitizeList cfg res mb doc),
      x.1 ∈ cfg.allowedTags ∧
      (∀ p ∈ x.2.1, attrOk cfg x.1 p.1 p.2 = true) ∧
      (∀ c ∈ x.2.2, classOk cfg x.1 c = true) := by
  match doc with
  | [] =>
    intro x hx
    exact absurd hx (by simp [sanitizeList, elemsOfList])
  | h :: t =>
    intro x hx
    simp only [sanitizeList] at hx
    rw [elemsOfList_append] at hx
    rcases List.mem_append.mp hx with h1 | h2
    · exact sanitizeNode_sound cfg res mb h x h1
    · exact sanitizeList_sound cfg res mb t x h2

end

theorem script_not_in_defaultAllowedTags (opts : RenderOptions) :
    "script" ∉ defaultAllowedTags opts := by
  unfold defaultAllowedTags
  cases hI : opts.allowIframes <;> cases hM : opts.allowMath <;>
    simp only [hI, hM, if_true, if_false, Bool.false_eq_true] <;> decide

theorem style_not_in_defaultAllowedTags (opts : RenderOptions) :
    "style" ∉ defaultAllowedTags opts := by
  unfold defaultAllowedTags
  cases hI : opts.allowIframes <;> cases hM : opts.allowMath <;>
    simp only [hI, hM, if_true, if_false, Bool.false_eq_true] <;> decide

theorem iframe_not_in_defaultAllowedTags (opts : RenderOptions)
    (h : opts.allowIframes = false) : "iframe" ∉ defaultAllowedTags opts := by
  unfold defaultAllowedTags
  cases hM : opts.allowMath <;>
    simp only [h, hM, if_true, if_false, Bool.false_eq_true] <;> decide

theorem tagsOf_mem (doc : List Html) (t : String) (h : t ∈ tagsOf doc) :
    ∃ x ∈ elemsOfList doc, x.1 = t := by
  unfold tagsOf at h
  rcases List.mem_map.mp h with ⟨x, hx, rfl⟩
  exact ⟨x, hx, rfl⟩

theorem schemeOf_head_alpha (l : List Char) (sch : List Char)
    (h : schemeOf l = some sch) : ∃ c rest, l = c :: rest ∧ c.isAlpha = true := by
  cases l with
  | nil => simp [schemeOf] at h
  | cons c rest =>
    refine ⟨c, rest, rfl, ?_⟩
    unfold schemeOf at h
    by_cases hc : c.isAlpha = true
    · exact hc
    · simp [hc] at h

theorem urlOk_no_protocol_relative (v : String) (h : urlOk false v = true) :
    isProtocolRelativeUrl v = false := by
  simp only [urlOk] at h
  unfold isProtocolRelativeUrl
  cases hs : schemeOf (stripUrlControl v) with
  | none =>
    rw [hs] at h
    by_cases ht : isTwoSlash (stripUrlControl v) = true
    · rw [if_pos ht] at h; exact absurd h (by decide)
    · exact Bool.not_eq_true _ |>.mp ht
  | some sch =>
    obtain ⟨c, rest, heq, hc⟩ := schemeOf_head_alpha _ _ hs
    rw [heq]
    cases rest with
    | nil => rfl
    | cons b more =>
      have h1 : (c = '/' || c = '\\') = false := by
        by_cases hsl : c = '/'
        · subst hsl; simp at hc
        · by_cases hb : c = '\\'
          · subst hb; simp at hc
          · simp [hsl, hb]
      simp only [isTwoSlash]
      rw [h1, Bool.false_and]

/-- C1: for every parsed document entering `render`'s sanitization stage
with sanitization enabled, every element of the output carries a tag in the
resolved tag allow-list, only attributes passing the resolved per-tag
attribute allow-list, and only classes passing the resolved per-tag class
allow-list; in particular no `script` or `style` element survives, and no
`iframe` element survives while `allowIframes` is off (provided the caller
did not itself allow-list those tags). -/
theorem render_sanitized_within_allowlists
    (resolveUrl : String → String → Option String) (opts : RenderOptions)
    (doc : List Html) (hsan : opts.disableHtmlSanitization = false) :
    (∀ x ∈ elemsOfList (renderSanitizationStage resolveUrl opts doc),
       x.1 ∈ resolvedAllowedTags opts ∧
       (∀ p ∈ x.2.1, attrOk (renderConfig opts) x.1 p.1 p.2 = true) ∧
       (∀ c ∈ x.2.2, classOk (renderConfig opts) x.1 c = true)) ∧
    ("script" ∉ opts.allowedTags →
       "script" ∉ tagsOf (renderSanitizationStage resolveUrl opts doc)) ∧
    ("style" ∉ opts.allowedTags →
       "style" ∉ tagsOf (renderSanitizationStage resolveUrl opts doc)) ∧
    (opts.allowIframes = false → "iframe" ∉ opts.allowedTags →
       "iframe" ∉ tagsOf (renderSanitizationStage resolveUrl opts doc)) := by
  have hstage : renderSanitizationStage resolveUrl opts doc =
      sanitizeList (renderConfig opts) resolveUrl (effectiveMediaBaseUrl opts) doc := by
    unfold renderSanitizationStage
    rw [hsan]
    simp
  have main : ∀ x ∈ elemsOfList (renderSanitizationStage resolveUrl opts doc),
      x.1 ∈ resolvedAllowedTags opts ∧
      (∀ p ∈ x.2.1, attrOk (renderConfig opts) x.1 p.1 p.2 = true) ∧
      (∀ c ∈ x.2.2, classOk (renderConfig opts) x.1 c = true) := by
    rw [hstage]
    exact sanitizeList_sound (renderConfig opts) resolveUrl (effectiveMediaBaseUrl opts) doc
  refine ⟨main, ?_, ?_, ?_⟩
  · intro hext hmem
    obtain ⟨x, hx, hx1⟩ := tagsOf_mem _ _ hmem
    have := (main x hx).1
    rw [hx1] at this
    rcases List.mem_append.mp this with hd | he
    · exact script_not_in_defaultAllowedTags opts hd
    · exact hext he
  · intro hext hmem
    obtain ⟨x, hx, hx1⟩ := tagsOf_mem _ _ hmem
    have := (main x hx).1
    rw [hx1] at this
    rcases List.mem_append.mp this with hd | he
    · exact style_not_in_defaultAllowedTags opts hd
    · exact hext he
  · intro hifr hext hmem
    obtain ⟨x, hx, hx1⟩ := tagsOf_mem _ _ hmem
    have := (main x hx).1
    rw [hx1] at this
    rcases List.mem_append.mp this with hd | he
    · exact iframe_not_in_defaultAllowedTags opts hifr hd
    · exact hext he

/-- Witness for C1 at a concrete document containing `<script>`, `<style>`,
`<iframe>` and `<p>` under the default options. -/
theorem render_sanitized_within_allowlists_witness :
    "script" ∉ tagsOf (renderSanitizationStage (fun _ _ => none) {}
        [Html.elem "script" [] [] [Html.text "alert(1)"],
         Html.elem "style" [] [] [], Html.elem "iframe" [] [] [],
         Html.elem "p" [] [] []]) ∧
    "style" ∉ tagsOf (renderSanitizationStage (fun _ _ => none) {}
        [Html.elem "script" [] [] [Html.text "alert(1)"],
         Html.elem "style" [] [] [], Html.elem "iframe" [] [] [],
         Html.elem "p" [] [] []]) ∧
    "iframe" ∉ tagsOf (renderSanitizationStage (fun _ _ => none) {}
        [Html.elem "script" [] [] [Html.text "alert(1)"],
         Html.elem "style" [] [] [], Html.elem "iframe" [] [] [],
         Html.elem "p" [] [] []]) := by
  have h := render_sanitized_within_allowlists (fun _ _ => none) {}
    [Html.elem "script" [] [] [Html.text "alert(1)"],
     Html.elem "style" [] [] [], Html.elem "iframe" [] [] [],
     Html.elem "p" [] [] []] rfl
  exact ⟨h.2.1 (by decide), h.2.2.1 (by decide), h.2.2.2 rfl (by decide)⟩

/-- C7 (amended): whenever the sanitization gate runs (sanitization not
disabled), it is invoked with `allowProtocolRelative: false`, and no
protocol-relative URL (`//host/...`) survives into an attribute the gate
vets as a URL — `href`, `src` or `cite`; an attribute the gate does not
URL-vet can retain a protocol-relative value even with sanitization on, as
`poster` does (allow-listed on `video` by `render` but absent from
`sanitize-html`'s `allowedSchemesAppliedToAttributes`), and with
`disableHtmlSanitization` set nothing is filtered at all. -/
theorem no_protocol_relative_in_sanitized_output
    (resolveUrl : String → String → Option String) (opts : RenderOptions)
    (doc : List Html) (hsan : opts.disableHtmlSanitization = false) :
    (renderConfig opts).allowProtocolRelative = false ∧
    (∀ x ∈ elemsOfList (renderSanitizationStage resolveUrl opts doc),
      ∀ p ∈ x.2.1, urlAttributes.contains p.1 = true →
        isProtocolRelativeUrl p.2 = false) ∧
    (renderSanitizationStage (fun _ _ => none) {}
        [Html.elem "video" [("poster", "//evil.example/x")] [] []] =
      [Html.elem "video" [("poster", "//evil.example/x")] [] []] ∧
     isProtocolRelativeUrl "//evil.example/x" = true) := by
  refine ⟨rfl, ?_, rfl, by decide⟩
  intro x hx p hp hurl
  have hstage : renderSanitizationStage resolveUrl opts doc =
      sanitizeList (renderConfig opts) resolveUrl (effectiveMediaBaseUrl opts) doc := by
    unfold renderSanitizationStage
    rw [hsan]
    simp
  rw [hstage] at hx
  have hattr := (sanitizeList_sound (renderConfig opts) resolveUrl
    (effectiveMediaBaseUrl opts) doc x hx).2.1 p hp
  simp only [attrOk, Bool.and_eq_true] at hattr
  obtain ⟨-, hok⟩ := hattr
  rw [hurl, if_pos rfl] at hok
  exact urlOk_no_protocol_relative p.2 hok

/-- C7 counterexample: the claim quantifies over every combination of
options, but with `disableHtmlSanitization` set the gate is skipped
entirely (`src/mod.ts` lines 236-238) and a protocol-relative `href`
survives into the rendered output verbatim. -/
theorem protocol_relative_survives_unsanitized :
    renderSanitizationStage (fun _ _ => none) { disableHtmlSanitization := true }
        [Html.elem "a" [("href", "//evil.example/x")] [] []] =
      [Html.elem "a" [("href", "//evil.example/x")] [] []] ∧
    isProtocolRelativeUrl "//evil.example/x" = true := by
  exact ⟨rfl, by decide⟩

/-- Witness for C7 (amended), instantiated at the concrete anchor element
and its `href` attribute as they appear in the sanitized output of a
concrete document under the default options. -/
theorem no_protocol_relative_in_sanitized_output_witness :
    isProtocolRelativeUrl "https://ok.example/" = false :=
  (no_protocol_relative_in_sanitized_output (fun _ _ => none) {}
      [Html.elem "a" [("href", "https://ok.example/")] [] []] rfl).2.1
    ("a", [("href", "https://ok.example/")], []) (by decide)
    ("href", "https://ok.example/") (by decide) (by decide)

/-- C8 (amended): `transformMedia` with a truthy (non-empty) media base URL
and a truthy (non-empty) `src` rewrites `src` to the resolved URL, and on
resolution failure (`new URL` throwing) removes the `src` attribute
entirely — the output then has no `src` at all; the tag name is unchanged
and no failure escapes (the function is total). -/
theorem transformMedia_resolves_or_drops
    (resolveUrl : String → String → Option String) (base tag : String)
    (attribs : List (String × String)) (src : String)
    (hbase : base ≠ "") (hsrc : jget attribs "src" = some src) (hne : src ≠ "") :
    (∀ r, resolveUrl src base = some r →
       transformMedia resolveUrl (some base) tag attribs =
         (tag, attribs.map (fun p => if p.1 = "src" then ("src", r) else p))) ∧
    (resolveUrl src base = none →
       transformMedia resolveUrl (some base) tag attribs =
         (tag, attribs.filter (fun p => p.1 ≠ "src")) ∧
       jget (attribs.filter (fun p => p.1 ≠ "src")) "src" = none) := by
  constructor
  · intro r hres
    simp [transformMedia, hsrc, hres, hbase, hne]
  · intro hres
    constructor
    · simp [transformMedia, hsrc, hres, hbase, hne]
    · unfold jget
      rw [List.find?_eq_none.mpr]
      intro p hp
      have hmem := List.mem_reverse.mp hp
      have := (List.mem_filter.mp hmem).2
      simpa using this

/-- Witness for C8 (amended) at a concrete `img` attribute list, in both
the success and the failure branch of resolution. -/
theorem transformMedia_resolves_or_drops_witness :
    (transformMedia (fun s b => some (b ++ s)) (some "https://host/") "img"
        [("src", "a.png"), ("alt", "x")] =
      ("img", [("src", "https://host/a.png"), ("alt", "x")])) ∧
    (transformMedia (fun _ _ => none) (some "https://host/") "img"
        [("src", "a.png"), ("alt", "x")] =
      ("img", [("alt", "x")])) := by
  constructor
  · have h := (transformMedia_resolves_or_drops (fun s b => some (b ++ s))
      "https://host/" "img" [("src", "a.png"), ("alt", "x")] "a.png"
      (by decide) (by decide) (by decide)).1 "https://host/a.png" rfl
    rw [h]; rfl
  · have h := ((transformMedia_resolves_or_drops (fun _ _ => none)
      "https://host/" "img" [("src", "a.png"), ("alt", "x")] "a.png"
      (by decide) (by decide) (by decide)).2 rfl).1
    rw [h]; rfl

/-- C8 counterexample: an `img` carrying the (empty-string) `src` attribute
with a media base URL configured is left untouched — the JavaScript guard
`if (opts.mediaBaseUrl && attribs.src)` treats the empty `src` as falsy and
skips the rewrite, although resolving the empty string against the base
succeeds (e.g. `new URL("", "https://host/").href` is `"https://host/"`,
which the resolver argument models). -/
theorem transformMedia_skips_empty_src :
    transformMedia (fun _ b => some b) (some "https://host/") "img" [("src", "")] =
      ("img", [("src", "")]) ∧
    (fun (_ b : String) => some b) "" "https://host/" = some "https://host/" ∧
    ("" : String) ≠ "https://host/" := by
  exact ⟨rfl, rfl, by decide⟩

/-- C5: `Renderer.code` acts on the normalized language (first
comma-separated segment, lowercased): a normalized language `math` with
math enabled yields the katex display-mode output verbatim, and otherwise,
whenever no Prism grammar exists under the exact normalized name, the
result is the HTML-entity-escaped `<pre><code>` block carrying the
`notranslate` class (the function is total, hence never throws, for every
language string). -/
theorem renderer_code_spec (collab : CodeCollab) (r : Renderer) (code : String)
    (language : Option String) :
    (normalizeLanguage language = some "math" → r.allowMath = true →
       Renderer.code collab r code language = collab.katexRenderDisplay code) ∧
    (¬(normalizeLanguage language = some "math" ∧ r.allowMath = true) →
     (∀ l, normalizeLanguage language = some l → l ∉ collab.prismGrammars) →
       Renderer.code collab r code language =
         "<pre><code class=\"notranslate\">" ++ heEncode code ++ "</code></pre>") := by
  constructor
  · intro hmath hallow
    unfold Renderer.code
    rw [if_pos ⟨hmath, hallow⟩]
  · intro hnotmath hnogrammar
    unfold Renderer.code
    rw [if_neg hnotmath]
    cases hn : normalizeLanguage language with
    | none => rfl
    | some l =>
      have hmem : l ∉ collab.prismGrammars := hnogrammar l hn
      by_cases hl : l = ""
      · simp [hl]
      · simp [hl, hmem]

/-- Witness for C5: the math path, and the unknown-language fallback, at
concrete inputs (language tags `math` and `zz, ignore`). -/
theorem renderer_code_spec_witness :
    Renderer.code ⟨fun c => "<span class=\"katex-display\">" ++ c ++ "</span>",
        ["ts", "js"], fun c _ => c⟩
      ⟨true, none, SluggerState.empty⟩ "x+y" (some "math") =
      "<span class=\"katex-display\">x+y</span>" ∧
    Renderer.code ⟨fun c => "<span class=\"katex-display\">" ++ c ++ "</span>",
        ["ts", "js"], fun c _ => c⟩
      ⟨false, none, SluggerState.empty⟩ "a<b" (some "ZZ, ignore") =
      "<pre><code class=\"notranslate\">a&lt;b</code></pre>" := by
  constructor
  · exact (renderer_code_spec _ _ "x+y" (some "math")).1 (by decide) rfl
  · exact (renderer_code_spec _ _ "a<b" (some "ZZ, ignore")).2
      (by decide) (by decide)

/-- C6: `Renderer.link` emits no `rel` attribute for an in-document anchor
(`href` starting with `#`); for every other `href` it emits
`rel="noopener noreferrer"`, resolving `href` against a truthy configured
base URL and keeping the original `href` when resolution fails (and also
when the configured base is the falsy empty string, against which a real
resolution would fail anyway); the `title` attribute is present exactly
when the title is non-empty. -/
theorem renderer_link_spec (resolveUrl : String → String → Option String)
    (r : Renderer) (href : String) (title : Option String) (text : String) :
    (jsStartsWith href "#" = true →
       Renderer.link resolveUrl r href title text =
         "<a href=\"" ++ href ++ "\"" ++ linkTitleAttr title ++ ">" ++ text ++ "</a>") ∧
    (jsStartsWith href "#" = false →
       (∀ base, r.baseUrl = some base → base ≠ "" →
          (∀ res, resolveUrl href base = some res →
             Renderer.link resolveUrl r href title text =
               "<a href=\"" ++ res ++ "\"" ++ linkTitleAttr title ++
                 " rel=\"noopener noreferrer\">" ++ text ++ "</a>") ∧
          (resolveUrl href base = none →
             Renderer.link resolveUrl r href title text =
               "<a href=\"" ++ href ++ "\"" ++ linkTitleAttr title ++
                 " rel=\"noopener noreferrer\">" ++ text ++ "</a>")) ∧
       ((r.baseUrl = none ∨ r.baseUrl = some "") →
          Renderer.link resolveUrl r href title text =
            "<a href=\"" ++ href ++ "\"" ++ linkTitleAttr title ++
              " rel=\"noopener noreferrer\">" ++ text ++ "</a>")) ∧
    (linkTitleAttr none = "" ∧ linkTitleAttr (some "") = "" ∧
       ∀ t, t ≠ "" → linkTitleAttr (some t) = " title=\"" ++ t ++ "\"") := by
  refine ⟨?_, ?_, rfl, rfl, ?_⟩
  · intro hanchor
    unfold Renderer.link
    rw [if_pos hanchor]
  · intro hanchor
    constructor
    · intro base hbase hne
      constructor
      · intro res hres
        unfold Renderer.link
        rw [if_neg (by simp [hanchor]), hbase]
        simp [hne, hres]
      · intro hres
        unfold Renderer.link
        rw [if_neg (by simp [hanchor]), hbase]
        simp [hne, hres]
    · intro hb
      unfold Renderer.link
      rw [if_neg (by simp [hanchor])]
      rcases hb with hb | hb
      · rw [hb]
      · rw [hb]
        simp
  · intro t ht
    simp [linkTitleAttr, ht]

/-- Witness for C6 at concrete links: an in-document anchor without `rel`,
and an external link resolved against the base with
`rel="noopener noreferrer"`. -/
theorem renderer_link_spec_witness :
    Renderer.link (fun h b => some (b ++ h)) ⟨false, none, SluggerState.empty⟩
        "#section" none "x" = "<a href=\"#section\">x</a>" ∧
    Renderer.link (fun h b => some (b ++ h))
        ⟨false, some "https://host", SluggerState.empty⟩ "/p" none "x" =
      "<a href=\"https://host/p\" rel=\"noopener noreferrer\">x</a>" := by
  constructor
  · exact (renderer_link_spec (fun h b => some (b ++ h))
      ⟨false, none, SluggerState.empty⟩ "#section" none "x").1 rfl
  · exact ((renderer_link_spec (fun h b => some (b ++ h))
      ⟨false, some "https://host", SluggerState.empty⟩ "/p" none "x").2.1
      (by decide)).1 "https://host" rfl (by decide) |>.1 "https://host/p" rfl

/-- C2 (amended): caller-supplied `allowedTags` and `allowedAttributes`
extend the defaults additively — the resolved tag list has the default
list as a prefix (so no default tag is removed), and for every tag the
resolved attribute entry list has the default entry list as a prefix (so
no default attribute entry is removed) — while `allowedClasses` is merged
by object spread: a caller entry for a tag replaces that tag's default
class policy wholesale, and the default policy of a tag survives exactly
when the caller's `allowedClasses` has no entry for it. -/
theorem resolved_allowlists_merge_spec (opts : RenderOptions) :
    defaultAllowedTags opts <+: resolvedAllowedTags opts ∧
    (∀ tag, ((jget (defaultAllowedAttributes opts) tag).getD []) <+:
       ((jget (resolvedAllowedAttributes opts) tag).getD [])) ∧
    (∀ tag, jget (resolvedAllowedClasses opts) tag =
       (jget opts.allowedClasses tag).or (jget (defaultAllowedClasses opts) tag)) := by
  refine ⟨List.prefix_append _ _, ?_, ?_⟩
  · intro tag
    exact mergeAttributes_keeps_defaults opts.allowedAttributes
      (defaultAllowedAttributes opts) tag
  · intro tag
    exact jget_append _ _ tag

/-- C2 counterexample: a caller extension `allowedClasses: { a: [] }` does
not union with the default class allow-list of the `a` tag — it replaces
it, so the default `anchor` class (used by every heading's anchor link)
stops being allowed, while under the default options it is allowed. -/
theorem resolved_classes_not_additive :
    classOk (renderConfig { allowedClasses := [("a", ClassPolicy.allowList [])] })
        "a" "anchor" = false ∧
    classOk (renderConfig {}) "a" "anchor" = true ∧
    jget (defaultAllowedClasses { allowedClasses := [("a", ClassPolicy.allowList [])] })
        "a" = some (ClassPolicy.allowList ["anchor"]) := by
  exact ⟨by decide, by decide, by decide⟩

/-! ## `Nat.repr` is injective -/

theorem decValue_foldl_shift (l : List Char) (a : Nat) :
    l.foldl (fun acc c => 10 * acc + decDigitVal c) a =
      a * 10 ^ l.length + decValue l := by
  induction l generalizing a with
  | nil => simp [decValue]
  | cons c cs ih =>
    have hc : decValue (c :: cs) =
        (10 * 0 + decDigitVal c) * 10 ^ cs.length + decValue cs := by
      simp only [decValue, List.foldl_cons]
      exact ih _
    simp only [List.foldl_cons, List.length_cons]
    rw [ih (10 * a + decDigitVal c), hc]
    ring

theorem decValue_cons (c : Char) (l : List Char) :
    decValue (c :: l) = decDigitVal c * 10 ^ l.length + decValue l := by
  simp only [decValue, List.foldl_cons]
  rw [decValue_foldl_shift]
  simp [decValue]

theorem decDigitVal_digitChar (m : Nat) (h : m < 10) :
    decDigitVal (Nat.digitChar m) = m := by
  interval_cases m <;> decide

theorem decValue_toDigitsCore (fuel : Nat) :
    ∀ (n : Nat) (ds : List Char), n < fuel →
    decValue (Nat.toDigitsCore 10 fuel n ds) = n * 10 ^ ds.length + decValue ds := by
  induction fuel with
  | zero => intro n ds h; omega
  | succ f ih =>
    intro n ds h
    rw [Nat.toDigitsCore]
    by_cases hz : n / 10 = 0
    · rw [if_pos hz]
      have hn : n < 10 := by omega
      rw [decValue_cons, decDigitVal_digitChar (n % 10) (by omega)]
      rw [Nat.mod_eq_of_lt hn]
    · rw [if_neg hz]
      have hlt : n / 10 < f := by omega
      rw [ih (n / 10) (Nat.digitChar (n % 10) :: ds) hlt]
      rw [decValue_cons, decDigitVal_digitChar (n % 10) (by omega)]
      have hqr : 10 * (n / 10) + n % 10 = n := Nat.div_add_mod n 10
      have key : (n / 10) * 10 ^ (ds.length + 1) + n % 10 * 10 ^ ds.length =
          n * 10 ^ ds.length := by
        rw [pow_succ]
        calc (n / 10) * (10 ^ ds.length * 10) + n % 10 * 10 ^ ds.length
            = (10 * (n / 10) + n % 10) * 10 ^ ds.length := by ring
          _ = n * 10 ^ ds.length := by rw [hqr]
      simp only [List.length_cons]
      omega

theorem decValue_repr (n : Nat) : decValue (Nat.repr n).data = n := by
  have h := decValue_toDigitsCore (n + 1) n [] (Nat.lt_succ_self n)
  have hdata : (Nat.repr n).data = Nat.toDigitsCore 10 (n + 1) n [] := rfl
  rw [hdata, h]
  simp [decValue]

theorem nat_repr_injective {a b : Nat} (h : Nat.repr a = Nat.repr b) : a = b := by
  have := congrArg (fun s => decValue s.data) h
  simpa [decValue_repr] using this

theorem string_append_cancel_left {s a b : String} (h : s ++ a = s ++ b) : a = b := by
  have hd := congrArg String.data h
  simp only [String.data_append] at hd
  exact String.ext (List.append_cancel_left hd)

theorem string_self_ne_append {s t : String} (h : t ≠ "") : s ≠ s ++ t := by
  intro he
  apply h
  have hlen := congrArg String.length he
  rw [String.length_append] at hlen
  have hz : t.length = 0 := by omega
  cases t with
  | mk d =>
    cases d with
    | nil => rfl
    | cons c cs => simp [String.length] at hz

theorem slug_cand_injective (original : String) {i j : Nat}
    (h : original ++ "-" ++ Nat.repr i = original ++ "-" ++ Nat.repr j) : i = j :=
  nat_repr_injective (string_append_cancel_left h)

theorem slug_orig_ne_cand (original : String) (i : Nat) :
    original ≠ original ++ "-" ++ Nat.repr i := by
  rw [String.append_assoc]
  apply string_self_ne_append
  intro he
  have hlen := congrArg String.length he
  rw [String.length_append] at hlen
  rw [show ("-" : String).length = 1 from rfl,
      show ("" : String).length = 0 from rfl] at hlen
  omega

/-! ## The slug registry never returns a taken slug -/

theorem occHas_iff_mem (occ : List (String × Nat)) (t : String) :
    occHas occ t = true ↔ t ∈ occ.map Prod.fst := by
  unfold occHas
  rw [List.any_eq_true]
  constructor
  · rintro ⟨p, hp, hpt⟩
    exact List.mem_map.mpr ⟨p, hp, by simpa using hpt⟩
  · intro h
    rcases List.mem_map.mp h with ⟨p, hp, rfl⟩
    exact ⟨p, hp, by simp⟩

theorem keys_occSet_of_has (occ : List (String × Nat)) (s : String) (n : Nat)
    (h : occHas occ s = true) :
    (occSet occ s n).map Prod.fst = occ.map Prod.fst := by
  unfold occSet
  rw [if_pos h, List.map_map]
  apply List.map_congr_left
  intro p _
  by_cases hp : p.1 = s
  · simp [hp]
  · simp [hp]

theorem occGet_occSet_self (occ : List (String × Nat)) (s : String) (n : Nat) :
    occGet (occSet occ s n) s = n := by
  unfold occSet
  split
  · next h =>
    have aux : ∀ l : List (String × Nat), occHas l s = true →
        occGet (l.map (fun p => if p.1 = s then (s, n) else p)) s = n := by
      intro l
      induction l with
      | nil => intro h0; simp [occHas] at h0
      | cons p rest ih =>
        intro h0
        simp only [List.map_cons]
        by_cases hp : p.1 = s
        · rw [if_pos hp]
          unfold occGet
          rw [List.find?_cons_of_pos _ (by simp)]
        · rw [if_neg hp]
          have hh : occHas rest s = true := by
            unfold occHas at h0 ⊢
            simp only [List.any_cons, Bool.or_eq_true] at h0
            rcases h0 with h1 | h1
            · exact absurd (by simpa using h1) hp
            · exact h1
          unfold occGet at ih ⊢
          rw [List.find?_cons_of_neg _ (by simp [hp])]
          exact ih hh
    exact aux occ h
  · next h =>
    unfold occGet
    rw [List.find?_append, List.find?_eq_none.mpr, Option.none_or]
    · simp
    · intro p hp
      have hmem : p.1 ≠ s := by
        intro hps
        apply h
        unfold occHas
        rw [List.any_eq_true]
        exact ⟨p, hp, by simp [hps]⟩
      simp [hmem]

theorem length_filter_mono {α : Type} (p q : α → Bool)
    (hmono : ∀ x, p x = true → q x = true) (l : List α) :
    (l.filter p).length ≤ (l.filter q).length := by
  induction l with
  | nil => simp
  | cons x xs ih =>
    rw [List.filter_cons, List.filter_cons]
    cases hpx : p x with
    | true =>
      rw [hmono x hpx]
      simpa using ih
    | false =>
      cases hqx : q x with
      | true =>
        simp only [Bool.false_eq_true, if_false, if_true, List.length_cons]
        omega
      | false =>
        simpa using ih

theorem length_filter_lt {α : Type} (p q : α → Bool)
    (hmono : ∀ x, p x = true → q x = true) (l : List α) (a : α)
    (ha : a ∈ l) (hpa : p a = false) (hqa : q a = true) :
    (l.filter p).length < (l.filter q).length := by
  induction l with
  | nil => cases ha
  | cons x xs ih =>
    rw [List.filter_cons, List.filter_cons]
    rcases List.mem_cons.mp ha with rfl | hmem
    · rw [hpa, hqa]
      have := length_filter_mono p q hmono xs
      simp only [Bool.false_eq_true, if_false, if_true, List.length_cons]
      omega
    · cases hpx : p x with
      | true =>
        rw [hmono x hpx]
        simpa using ih hmem
      | false =>
        cases hqx : q x with
        | true =>
          simp only [Bool.false_eq_true, if_false, if_true, List.length_cons]
          have := ih hmem
          omega
        | false =>
          simp only [Bool.false_eq_true, if_false]
          exact ih hmem

theorem list_contains_iff_mem {α : Type} [BEq α] [LawfulBEq α] (l : List α) (a : α) :
    l.contains a = true ↔ a ∈ l := by
  simp [List.contains, List.elem_eq_mem]

theorem list_contains_eq_false_iff {α : Type} [BEq α] [LawfulBEq α] (l : List α) (a : α) :
    l.contains a = false ↔ a ∉ l := by
  simp [List.contains, List.elem_eq_mem]

theorem slugLoop_spec (original : String) (fuel : Nat) :
    ∀ (occ : List (String × Nat)) (result : String) (tried : List String),
    ((occ.map Prod.fst).filter (fun k => !(tried.contains k))).length < fuel →
    (∀ t ∈ tried, occHas occ t = true) →
    result ∉ tried →
    (∀ j, occGet occ original < j → (original ++ "-" ++ Nat.repr j) ∉ tried) →
    (result = original ∨
      (result = original ++ "-" ++ Nat.repr (occGet occ original) ∧
        1 ≤ occGet occ original ∧ occHas occ original = true)) →
    occHas (slugLoop original occ result fuel).2 (slugLoop original occ result fuel).1 = false ∧
    (slugLoop original occ result fuel).2.map Prod.fst = occ.map Prod.fst := by
  induction fuel with
  | zero =>
    intro occ result tried hfuel _ _ _ _
    omega
  | succ f ih =>
    intro occ result tried hfuel htried hres htriedcand hform
    rw [slugLoop]
    by_cases hhas : occHas occ result = true
    · rw [if_pos hhas]
      have horig : occHas occ original = true := by
        rcases hform with rfl | ⟨_, _, h⟩
        · exact hhas
        · exact h
      have hkeys2 : (occSet occ original (occGet occ original + 1)).map Prod.fst =
          occ.map Prod.fst :=
        keys_occSet_of_has occ original (occGet occ original + 1) horig
      have hget2 : occGet (occSet occ original (occGet occ original + 1)) original =
          occGet occ original + 1 :=
        occGet_occSet_self occ original (occGet occ original + 1)
      have hresmem : result ∈ occ.map Prod.fst := (occHas_iff_mem occ result).mp hhas
      have hcontr : tried.contains result = false :=
        (list_contains_eq_false_iff tried result).mpr hres
      have hlt : (((occSet occ original (occGet occ original + 1)).map Prod.fst).filter
          (fun k => !((result :: tried).contains k))).length < f := by
        rw [hkeys2]
        have hstrict := length_filter_lt
          (fun k => !((result :: tried).contains k))
          (fun k => !(tried.contains k))
          (by
            intro x hx
            simp only at hx ⊢
            rw [Bool.not_eq_true'] at hx ⊢
            rw [(list_contains_eq_false_iff _ x).mp hx |> fun hnm =>
              (list_contains_eq_false_iff tried x).mpr (fun hm => hnm (List.mem_cons_of_mem _ hm))])
          (occ.map Prod.fst) result hresmem
          (by
            simp only []
            rw [Bool.not_eq_false']
            exact (list_contains_iff_mem _ result).mpr (List.mem_cons_self _ _))
          (by
            simp only []
            rw [Bool.not_eq_true']
            exact hcontr)
        omega
      have h1b : ∀ t ∈ result :: tried,
          occHas (occSet occ original (occGet occ original + 1)) t = true := by
        intro t ht
        rw [occHas_iff_mem, hkeys2]
        rcases List.mem_cons.mp ht with rfl | ht2
        · exact hresmem
        · exact (occHas_iff_mem occ t).mp (htried t ht2)
      have h3b : (original ++ "-" ++ Nat.repr (occGet occ original + 1)) ∉
          result :: tried := by
        intro hmem
        rcases List.mem_cons.mp hmem with heq | hmem2
        · rcases hform with heqr | ⟨hform1, _, _⟩
          · rw [heqr] at heq
            exact slug_orig_ne_cand original (occGet occ original + 1) heq.symm
          · rw [hform1] at heq
            have := slug_cand_injective original heq
            omega
        · exact htriedcand (occGet occ original + 1) (by omega) hmem2
      have h4b : ∀ j, occGet (occSet occ original (occGet occ original + 1)) original < j →
          (original ++ "-" ++ Nat.repr j) ∉ result :: tried := by
        intro j hj hmem
        rw [hget2] at hj
        rcases List.mem_cons.mp hmem with heq | hmem2
        · rcases hform with heqr | ⟨hform1, _, _⟩
          · rw [heqr] at heq
            exact slug_orig_ne_cand original j heq.symm
          · rw [hform1] at heq
            have := slug_cand_injective original heq
            omega
        · exact htriedcand j (by omega) hmem2
      have h5b : (original ++ "-" ++ Nat.repr (occGet occ original + 1) = original ∨
          (original ++ "-" ++ Nat.repr (occGet occ original + 1) =
              original ++ "-" ++ Nat.repr
                (occGet (occSet occ original (occGet occ original + 1)) original) ∧
            1 ≤ occGet (occSet occ original (occGet occ original + 1)) original ∧
            occHas (occSet occ original (occGet occ original + 1)) original = true)) := by
        right
        refine ⟨by rw [hget2], by omega, ?_⟩
        rw [occHas_iff_mem, hkeys2]
        exact (occHas_iff_mem occ original).mp horig
      have hrec := ih (occSet occ original (occGet occ original + 1))
        (original ++ "-" ++ Nat.repr (occGet occ original + 1)) (result :: tried)
        hlt h1b h3b h4b h5b
      exact ⟨hrec.1, hrec.2.trans hkeys2⟩
    · rw [if_neg hhas]
      exact ⟨Bool.not_eq_true _ |>.mp hhas, rfl⟩

theorem slug_spec (st : SluggerState) (v : String) :
    occHas st.occ (st.slug v).1 = false ∧
    (st.slug v).2.occ.map Prod.fst = st.occ.map Prod.fst ++ [(st.slug v).1] := by
  rcases hsl : slugLoop (slugify v) st.occ (slugify v) (st.occ.length + 2) with ⟨r, occ2⟩
  have hspec := slugLoop_spec (slugify v) (st.occ.length + 2) st.occ (slugify v) []
    (by
      simp only [List.contains_nil, Bool.not_false, List.filter_true, List.length_map]
      omega)
    (by simp)
    (by simp)
    (by simp)
    (Or.inl rfl)
  rw [hsl] at hspec
  have hslug : st.slug v = (r, ⟨occSet occ2 r 0⟩) := by
    simp only [SluggerState.slug]
    rw [hsl]
  rw [hslug]
  have hnothas : occHas occ2 r = false := hspec.1
  have hkeys : occ2.map Prod.fst = st.occ.map Prod.fst := hspec.2
  constructor
  · cases hc : occHas st.occ r with
    | false => rfl
    | true =>
      have := (occHas_iff_mem st.occ r).mp hc
      rw [← hkeys] at this
      rw [(occHas_iff_mem occ2 r).mpr this] at hnothas
      exact absurd hnothas (by simp)
  · show (occSet occ2 r 0).map Prod.fst = st.occ.map Prod.fst ++ [r]
    unfold occSet
    rw [if_neg (by simp [hnothas]), List.map_append, hkeys]
    rfl

theorem renderHeadingIds_spec (raws : List String) : ∀ r : Renderer,
    (renderHeadingIds r raws).1.Nodup ∧
    (∀ x ∈ (renderHeadingIds r raws).1, occHas r.slugger.occ x = false) ∧
    (∀ s, occHas r.slugger.occ s = true →
      occHas (renderHeadingIds r raws).2.slugger.occ s = true) := by
  induction raws with
  | nil =>
    intro r
    refine ⟨List.nodup_nil, ?_, ?_⟩
    · intro x hx
      simp [renderHeadingIds] at hx
    · intro s hs
      simpa [renderHeadingIds] using hs
  | cons raw rest ih =>
    intro r
    rcases hsl : r.slugger.slug raw with ⟨slug, st⟩
    have hslug := slug_spec r.slugger raw
    rw [hsl] at hslug
    rcases hrest : renderHeadingIds { r with slugger := st } rest with ⟨ids, rfin⟩
    have hih := ih { r with slugger := st }
    rw [hrest] at hih
    have hunfold : renderHeadingIds r (raw :: rest) = (slug :: ids, rfin) := by
      simp only [renderHeadingIds]
      rw [hsl, hrest]
    rw [hunfold]
    have hmemst : occHas st.occ slug = true := by
      rw [occHas_iff_mem, hslug.2]
      exact List.mem_append_right _ (List.mem_singleton.mpr rfl)
    have htrans : ∀ x, occHas r.slugger.occ x = true → occHas st.occ x = true := by
      intro x hx
      rw [occHas_iff_mem, hslug.2]
      exact List.mem_append_left _ ((occHas_iff_mem _ x).mp hx)
    refine ⟨?_, ?_, ?_⟩
    · rw [List.nodup_cons]
      refine ⟨?_, hih.1⟩
      intro hmem
      have := hih.2.1 slug hmem
      rw [hmemst] at this
      exact absurd this (by simp)
    · intro x hx
      rcases List.mem_cons.mp hx with rfl | hx2
      · exact hslug.1
      · cases hc : occHas r.slugger.occ x with
        | false => rfl
        | true =>
          have := htrans x hc
          rw [hih.2.1 x hx2] at this
          exact absurd this (by simp)
    · intro s hs
      exact hih.2.2 s (htrans s hs)

/-- C4 (amended): within one `render` invocation every heading receives an
id distinct from every other heading's id, and a repeated heading slug gets
a numeric suffix; when the caller supplies no custom renderer, `render`
builds a fresh `Renderer` — hence a fresh, empty slug registry — for that
invocation, so nothing carries over between such calls; when the caller
supplies (and reuses) its own `Renderer`, the registry is that object's
state and persists across calls. -/
theorem heading_ids_unique_per_render (opts : RenderOptions) (raws : List String) :
    (renderSlugAssignment opts raws).1.Nodup ∧
    (opts.renderer = none →
      renderSlugAssignment opts raws =
        renderHeadingIds ⟨opts.allowMath, opts.baseUrl, SluggerState.empty⟩ raws) ∧
    (∀ r, opts.renderer = some r →
      renderSlugAssignment opts raws = renderHeadingIds r raws) := by
  refine ⟨(renderHeadingIds_spec raws (getOptsRenderer opts)).1, ?_, ?_⟩
  · intro hnone
    unfold renderSlugAssignment getOptsRenderer
    rw [hnone]
    rfl
  · intro r hr
    unfold renderSlugAssignment getOptsRenderer
    rw [hr]

/-- Witness for C4 (amended): under the default options, the document with
headings `foo`, `foo` gets the distinct ids `foo` and `foo-1`. -/
theorem heading_ids_unique_per_render_witness :
    (renderSlugAssignment {} ["foo", "foo"]).1 = ["foo", "foo-1"] ∧
    (renderSlugAssignment {} ["foo", "foo"]).1.Nodup := by
  constructor
  · rfl
  · exact (heading_ids_unique_per_render {} ["foo", "foo"]).1

/-- C4 counterexample: slug state does carry over from one `render` call to
the next when both calls share a caller-supplied `Renderer` — the second
call renders the same single-heading document yet produces `foo-1`, because
the registry still holds the first call's `foo`. -/
theorem slug_state_carries_over_with_shared_renderer :
    (renderSlugAssignment { renderer := some (Renderer.new {}) } ["foo"]).1 =
      ["foo"] ∧
    (renderSlugAssignment
        { renderer :=
            some (renderSlugAssignment { renderer := some (Renderer.new {}) } ["foo"]).2 }
        ["foo"]).1 = ["foo-1"] := by
  exact ⟨rfl, rfl⟩

/-! ## Whitespace invariants of `strip` -/

theorem dropWhile_head?_false {α : Type} (p : α → Bool) (l : List α) (c : α)
    (h : (l.dropWhile p).head? = some c) : p c = false := by
  induction l with
  | nil => simp [List.dropWhile] at h
  | cons x xs ih =>
    rw [List.dropWhile_cons] at h
    split at h
    · exact ih h
    · next hx =>
      rw [List.head?_cons, Option.some_inj] at h
      subst h
      exact Bool.not_eq_true _ |>.mp hx

theorem jsTrim_getLast?_not_ws (l : List Char) (c : Char)
    (h : (jsTrim l).getLast? = some c) : isJsWhitespace c = false := by
  unfold jsTrim at h
  rw [List.getLast?_reverse] at h
  exact dropWhile_head?_false isJsWhitespace _ c h

theorem hasTripleNL_cons_of_ne (c : Char) (hc : c ≠ '\n') (t : List Char) :
    hasTripleNL (c :: t) = hasTripleNL t := by
  match t with
  | [] => rfl
  | [x] => rfl
  | x :: y :: rest =>
    show ((c = '\n' && x = '\n' && y = '\n') || hasTripleNL (x :: y :: rest)) = _
    simp [hc]

theorem hasTripleNL_nl_cons (c : Char) (hc : c ≠ '\n') (t : List Char) :
    hasTripleNL ('\n' :: c :: t) = hasTripleNL (c :: t) := by
  match t with
  | [] => rfl
  | x :: rest =>
    show (('\n' = '\n' && c = '\n' && x = '\n') || hasTripleNL (c :: x :: rest)) = _
    simp [hc]

theorem hasTripleNL_nl_nl_cons (c : Char) (hc : c ≠ '\n') (t : List Char) :
    hasTripleNL ('\n' :: '\n' :: c :: t) = hasTripleNL (c :: t) := by
  show (('\n' = '\n' && '\n' = '\n' && c = '\n') || hasTripleNL ('\n' :: c :: t)) = _
  simp [hc, hasTripleNL_nl_cons c hc t]

theorem hasTripleNL_emit_cons (n : Nat) (c : Char) (hc : c ≠ '\n') (t : List Char)
    (ht : hasTripleNL t = false) :
    hasTripleNL (emitNLRun n ++ c :: t) = false := by
  have hcons : hasTripleNL (c :: t) = false := by
    rw [hasTripleNL_cons_of_ne c hc t]
    exact ht
  unfold emitNLRun
  split
  · rw [List.cons_append, List.nil_append, hasTripleNL_nl_cons c hc t]
    exact hcons
  · next h3 =>
    interval_cases n
    · rw [List.replicate_zero, List.nil_append]
      exact hcons
    · rw [List.replicate_one, List.cons_append, List.nil_append,
        hasTripleNL_nl_cons c hc t]
      exact hcons
    · rw [show List.replicate 2 '\n' = ['\n', '\n'] from rfl]
      rw [List.cons_append, List.cons_append, List.nil_append,
        hasTripleNL_nl_nl_cons c hc t]
      exact hcons

theorem hasTripleNL_emit (n : Nat) : hasTripleNL (emitNLRun n) = false := by
  unfold emitNLRun
  split
  · decide
  · next h3 =>
    interval_cases n <;> decide

theorem hasTripleNL_collapseNLGo (l : List Char) : ∀ n : Nat,
    hasTripleNL (collapseNLGo n l) = false := by
  induction l with
  | nil =>
    intro n
    rw [collapseNLGo]
    exact hasTripleNL_emit n
  | cons c cs ih =>
    intro n
    rw [collapseNLGo]
    by_cases hc : c = '\n'
    · rw [if_pos hc]
      exact ih (n + 1)
    · rw [if_neg hc]
      exact hasTripleNL_emit_cons n c hc _ (ih 0)

theorem collapseNLGo_getLast? (l : List Char) (c : Char) : ∀ n : Nat,
    l.getLast? = some c → c ≠ '\n' →
    (collapseNLGo n l).getLast? = some c := by
  induction l with
  | nil =>
    intro n h _
    simp at h
  | cons x xs ih =>
    intro n h hc
    rw [collapseNLGo]
    cases xs with
    | nil =>
      simp only [List.getLast?_singleton, Option.some_inj] at h
      subst h
      rw [if_neg hc]
      rw [collapseNLGo]
      rw [show emitNLRun 0 = [] from rfl]
      exact List.getLast?_concat _
    | cons y ys =>
      have hxs : (y :: ys).getLast? = some c := by
        rw [← h, List.getLast?_cons_cons]
      by_cases hx : x = '\n'
      · rw [if_pos hx]
        exact ih (n + 1) hxs hc
      · rw [if_neg hx]
        have hrest := ih 0 hxs hc
        have h1 : (x :: collapseNLGo 0 (y :: ys)).getLast? = some c := by
          rw [show x :: collapseNLGo 0 (y :: ys) = [x] ++ collapseNLGo 0 (y :: ys) from rfl,
            List.getLast?_append, hrest]
          rfl
        rw [List.getLast?_append, h1]
        rfl

theorem hasTripleNL_append_newline : ∀ t : List Char, hasTripleNL t = false →
    t.getLast? ≠ some '\n' → hasTripleNL (t ++ ['\n']) = false
  | [] => by intro _ _; decide
  | [a] => by
    intro _ _
    rfl
  | [a, b] => by
    intro _ hb
    have hbn : b ≠ '\n' := by
      simpa [List.getLast?_cons_cons] using hb
    simp [hasTripleNL, hbn]
  | a :: b :: c :: rest => by
    intro ht hlast
    have hrec := hasTripleNL_append_newline (b :: c :: rest)
    show ((a = '\n' && b = '\n' && c = '\n') ||
      hasTripleNL ((b :: c :: rest) ++ ['\n'])) = false
    have ht2 : ((a = '\n' && b = '\n' && c = '\n') || hasTripleNL (b :: c :: rest)) =
        false := ht
    rcases Bool.or_eq_false_iff.mp ht2 with ⟨h1, h2⟩
    rw [h1, Bool.false_or]
    exact hrec h2 (by rwa [List.getLast?_cons_cons] at hlast)

/-- C9: `strip` assembles `header + "\n\n" + content` per section, joins
sections with `"\n\n"`, trims the whole string, collapses every run of
three or more newlines to one, and appends one newline; consequently the
output never contains three consecutive newlines and ends with exactly one
newline (a final newline whose preceding character, if any, is not a
newline). -/
theorem strip_assembly_spec (markdown : String) (opts : RenderOptions) :
    strip markdown opts =
      collapseNLStr (jsTrimStr (stripJoin (stripSplitBySections markdown opts))) ++ "\n" ∧
    hasTripleNL (strip markdown opts).data = false ∧
    ∃ t : List Char, (strip markdown opts).data = t ++ ['\n'] ∧
      t.getLast? ≠ some '\n' := by
  refine ⟨rfl, ?_, ?_⟩
  · have hdata : (strip markdown opts).data =
        collapseNL (jsTrim (stripJoin (stripSplitBySections markdown opts)).data) ++
          ['\n'] := rfl
    rw [hdata]
    apply hasTripleNL_append_newline
    · exact hasTripleNL_collapseNLGo _ 0
    · cases hg : (jsTrim (stripJoin (stripSplitBySections markdown opts)).data).getLast? with
      | none =>
        have : jsTrim (stripJoin (stripSplitBySections markdown opts)).data = [] := by
          rwa [List.getLast?_eq_none_iff] at hg
        rw [show collapseNL (jsTrim (stripJoin (stripSplitBySections markdown opts)).data) =
          collapseNLGo 0 (jsTrim (stripJoin (stripSplitBySections markdown opts)).data) from rfl]
        rw [this]
        intro hcontra
        rw [show collapseNLGo 0 [] = [] from rfl] at hcontra
        simp at hcontra
      | some c =>
        have hws := jsTrim_getLast?_not_ws _ c hg
        have hcn : c ≠ '\n' := by
          intro hcc
          rw [hcc] at hws
          exact absurd hws (by decide)
        have := collapseNLGo_getLast? _ c 0 hg hcn
        rw [show collapseNL (jsTrim (stripJoin (stripSplitBySections markdown opts)).data) =
          collapseNLGo 0 (jsTrim (stripJoin (stripSplitBySections markdown opts)).data) from rfl]
        rw [this]
        intro hcontra
        rw [Option.some_inj] at hcontra
        exact hcn hcontra
  · refine ⟨collapseNL (jsTrim (stripJoin (stripSplitBySections markdown opts)).data),
      rfl, ?_⟩
    cases hg : (jsTrim (stripJoin (stripSplitBySections markdown opts)).data).getLast? with
    | none =>
      have : jsTrim (stripJoin (stripSplitBySections markdown opts)).data = [] := by
        rwa [List.getLast?_eq_none_iff] at hg
      rw [show collapseNL (jsTrim (stripJoin (stripSplitBySections markdown opts)).data) =
        collapseNLGo 0 (jsTrim (stripJoin (stripSplitBySections markdown opts)).data) from rfl]
      rw [this]
      intro hcontra
      rw [show collapseNLGo 0 [] = [] from rfl] at hcontra
      simp at hcontra
    | some c =>
      have hws := jsTrim_getLast?_not_ws _ c hg
      have hcn : c ≠ '\n' := by
        intro hcc
        rw [hcc] at hws
        exact absurd hws (by decide)
      have := collapseNLGo_getLast? _ c 0 hg hcn
      rw [show collapseNL (jsTrim (stripJoin (stripSplitBySections markdown opts)).data) =
        collapseNLGo 0 (jsTrim (stripJoin (stripSplitBySections markdown opts)).data) from rfl]
      rw [this]
      intro hcontra
      rw [Option.some_inj] at hcontra
      exact hcn hcontra

/-! ## Section-depth invariant of the plain-text reduction -/

theorem map_modify_of_preserve {α β : Type} (f : α → α) (g : α → β)
    (hf : ∀ a, g (f a) = g a) (i : Nat) (l : List α) :
    (l.modify f i).map g = l.map g := by
  induction l generalizing i with
  | nil => cases i <;> rfl
  | cons a t ih =>
    cases i with
    | zero => simp [List.modify, List.modifyTailIdx, List.modifyHead, hf]
    | succ n =>
      show (a :: List.modify f n t).map g = _
      simp only [List.map_cons]
      rw [ih n]

theorem depthMap_appendAt (sections : List MarkdownSections) (index : Nat)
    (header : Bool) (s : String) :
    (appendAt sections index header s).map (fun sec => sec.depth) =
      sections.map (fun sec => sec.depth) := by
  apply map_modify_of_preserve
  intro a
  split <;> rfl

theorem depthMap_normalizeAt (sections : List MarkdownSections) (index : Nat) :
    (normalizeAt sections index).map (fun sec => sec.depth) =
      sections.map (fun sec => sec.depth) := by
  apply map_modify_of_preserve
  intro a
  rfl

theorem depthMap_appendSection (sections : List MarkdownSections) (d : Nat) :
    (appendSection sections d).map (fun sec => sec.depth) =
      sections.map (fun sec => sec.depth) ++ [d] := by
  simp [appendSection]

mutual

theorem depths_stripToken :
    ∀ (t : Token) (sections : List MarkdownSections) (index : Nat) (header : Bool),
    (stripToken t sections index header).1.map (fun s => s.depth) =
      sections.map (fun s => s.depth) ++ headingDepthsTok t
  | .space raw, sections, index, header => by
    simp [stripToken, headingDepthsTok, depthMap_appendAt]
  | .code raw lang text, sections, index, header => by
    simp only [stripToken]
    split <;> simp [headingDepthsTok, depthMap_appendAt]
  | .heading raw depth children, sections, index, header => by
    simp [stripToken, headingDepthsTok, depths_stripTokensFrom children,
      depthMap_appendSection, depthMap_normalizeAt]
  | .table headerCells rows, sections, index, header => by
    simp [stripToken, headingDepthsTok, depths_stripRows rows,
      depthMap_appendAt, depths_stripCells headerCells]
  | .hr raw, sections, index, header => by
    simp [stripToken, headingDepthsTok]
  | .blockquote raw children, sections, index, header => by
    simp [stripToken, headingDepthsTok, depths_stripTokensFrom children]
  | .list raw items, sections, index, header => by
    simp [stripToken, headingDepthsTok, depths_stripTokensFrom items]
  | .listItem raw children, sections, index, header => by
    simp [stripToken, headingDepthsTok, depths_stripTokensFrom children,
      depthMap_appendAt]
  | .paragraph raw children, sections, index, header => by
    simp [stripToken, headingDepthsTok, depths_stripTokensFrom children]
  | .html raw text, sections, index, header => by
    simp [stripToken, headingDepthsTok, depthMap_appendAt]
  | .text raw none, sections, index, header => by
    simp [stripToken, headingDepthsTok, depthMap_appendAt]
  | .text raw (some children), sections, index, header => by
    simp [stripToken, headingDepthsTok, depths_stripTokensFrom children]
  | .defTok raw, sections, index, header => by
    simp [stripToken, headingDepthsTok]
  | .escape raw, sections, index, header => by
    simp [stripToken, headingDepthsTok]
  | .link raw href title children, sections, index, header => by
    simp [stripToken, headingDepthsTok, depths_stripTokensFrom children]
  | .image raw title text, sections, index, header => by
    simp only [stripToken]
    split <;> simp [headingDepthsTok, depthMap_appendAt]
  | .strong raw children, sections, index, header => by
    simp [stripToken, headingDepthsTok, depths_stripTokensFrom children]
  | .em raw children, sections, index, header => by
    simp [stripToken, headingDepthsTok, depths_stripTokensFrom children]
  | .codespan raw text, sections, index, header => by
    simp [stripToken, headingDepthsTok, depthMap_appendAt]
  | .br raw, sections, index, header => by
    simp [stripToken, headingDepthsTok]
  | .del raw children, sections, index, header => by
    simp [stripToken, headingDepthsTok, depths_stripTokensFrom children]

theorem depths_stripTokensFrom :
    ∀ (tokens : List Token) (sections : List MarkdownSections) (index : Nat)
      (header : Bool),
    (stripTokensFrom tokens sections index header).map (fun s => s.depth) =
      sections.map (fun s => s.depth) ++ headingDepthsList tokens
  | [], sections, index, header => by
    simp [stripTokensFrom, headingDepthsList]
  | t :: ts, sections, index, header => by
    simp [stripTokensFrom, headingDepthsList, depths_stripTokensFrom ts,
      depths_stripToken t]

theorem depths_stripCells :
    ∀ (cells : List (List Token)) (sections : List MarkdownSections) (index : Nat)
      (header : Bool),
    (stripCells cells sections index header).map (fun s => s.depth) =
      sections.map (fun s => s.depth) ++ headingDepthsCells cells
  | [], sections, index, header => by
    simp [stripCells, headingDepthsCells]
  | cell :: cells, sections, index, header => by
    simp [stripCells, headingDepthsCells, depths_stripCells cells,
      depthMap_appendAt, depths_stripTokensFrom cell]

theorem depths_stripRows :
    ∀ (rows : List (List (List Token))) (sections : List MarkdownSections) (index : Nat)
      (header : Bool),
    (stripRows rows sections index header).map (fun s => s.depth) =
      sections.map (fun s => s.depth) ++ headingDepthsRows rows
  | [], sections, index, header => by
    simp [stripRows, headingDepthsRows]
  | row :: rows, sections, index, header => by
    simp [stripRows, headingDepthsRows, depths_stripRows rows,
      depthMap_appendAt, depths_stripCells row]

end

/-- C3 (amended): every heading token starts a new section — appended at
the end, never merging or reordering the existing ones — whose depth is the
heading's level and whose header and content start empty, after
whitespace-normalizing the previously current section (trim, collapse runs
of three or more newlines); the section-depth sequence of the output is
therefore the input's extended by the heading levels in processing order.
Normalization happens when the *next* heading begins, so the final section
is emitted as accumulated, without a trailing normalization.  On
`"# A\n\ntext1\n\n## B\n\ntext2"` the result is exactly the three claimed
sections: the depth-0 root, depth 1 with header `A` and content `text1`,
and depth 2 with header `B` and content `text2`.  The final conjunct pins
the `list` case's index discipline: `case "list"` spawns a fresh
`stripTokens` call whose index restarts at `sections.length - 1`, so the
list-item newline of a list following a blockquote-nested heading
accumulates into the heading's section, not the stale outer one. -/
theorem stripTokens_sections_spec :
    (∀ (tokens : List Token) (sections : List MarkdownSections) (header : Bool),
      (stripTokens tokens sections header).map (fun s => s.depth) =
        sections.map (fun s => s.depth) ++ headingDepthsList tokens) ∧
    (∀ (raw : String) (depth : Nat) (children : List Token)
       (sections : List MarkdownSections) (index : Nat) (header : Bool),
      stripToken (Token.heading raw depth children) sections index header =
        (stripTokensFrom children
          (normalizeAt sections index ++ [(⟨"", depth, ""⟩ : MarkdownSections)])
          ((normalizeAt sections index ++
            [(⟨"", depth, ""⟩ : MarkdownSections)]).length - 1) true,
         index + 1)) ∧
    stripSplitBySections "# A\n\ntext1\n\n## B\n\ntext2" {} =
      [⟨"", 0, ""⟩, ⟨"A", 1, "text1"⟩, ⟨"B", 2, "text2"⟩] ∧
    stripTokens
        [Token.blockquote "" [Token.heading "" 1 []],
         Token.list "" [Token.listItem "" [Token.text "b" none]]]
        [⟨"", 0, ""⟩] false =
      [⟨"", 0, ""⟩, ⟨"", 1, "b\n"⟩] := by
  refine ⟨?_, ?_, by decide, by decide⟩
  · intro tokens sections header
    exact depths_stripTokensFrom tokens sections (sections.length - 1) header
  · intro raw depth children sections index header
    rfl

/-- C3 counterexample: the final section is emitted without the
whitespace normalization the claim asserts for every emitted section — on
`"# A\n\ntext\n\n"` the trailing blank lines become a `space` token whose
raw newlines accumulate into the last section's content, which is emitted
as `"text\n\n"`, not equal to its own trimmed form. -/
theorem stripSplitBySections_last_section_unnormalized :
    stripSplitBySections "# A\n\ntext\n\n" {} =
      [⟨"", 0, ""⟩, ⟨"A", 1, "text\n\n"⟩] ∧
    jsTrimStr "text\n\n" ≠ "text\n\n" := by
  exact ⟨by decide, by decide⟩

/-- C10 (amended): `stripSplitBySections` deletes, before tokenization and
unconditionally — the result does not depend on `allowMath` or any other
option — exactly the segments matched by the source's two regexes: block
math `$$ ... $$` with whitespace-framed delimiters, and inline math
`$...$` preceded by a whitespace character.  Matched formulas contribute no
text to the plain-text output; `$`-math not matching the patterns is
retained. -/
theorem stripSplitBySections_math_removal_spec :
    (∀ (markdown : String) (o1 o2 : RenderOptions),
      stripSplitBySections markdown o1 = stripSplitBySections markdown o2) ∧
    (∀ (markdown : String) (opts : RenderOptions),
      stripSplitBySections markdown opts =
        stripTokens (lexModel (removeInlineMath (removeBlockMath (emojify markdown))))
          [⟨"", 0, ""⟩] false) ∧
    strip "a $x$ b" { allowMath := false } = "a b\n" ∧
    strip "x $$ y $$ z" { allowMath := false } = "x  z\n" := by
  exact ⟨fun _ _ _ => rfl, fun _ _ => rfl, by decide, by decide⟩

/-- C10 counterexample: `INLINE_MATH_REGEXP` requires a whitespace before
the opening `$`, so an inline math segment at the very start of the input
is not deleted, and its formula text survives into the plain-text
output — contradicting the claim that every `$...$` segment is deleted and
that math formulas never contribute text. -/
theorem inline_math_at_start_not_removed :
    removeInlineMath (removeBlockMath (emojify "$x$ y")) = "$x$ y" ∧
    strip "$x$ y" {} = "$x$ y\n" := by
  exact ⟨by decide, by decide⟩
